import Mathlib

/-!
Shallow embedding, over exact rationals, of the Motion2Music beat-extraction
core: the signal primitives and cue extractors (`beats/helpers.py`,
`beats/cues.py`), the fusion/event detectors (`beats/BeatExtraction.py`),
the tempo-aware refiner (`ml/ml_helpers.py`), the BVH kinematics resolver
(`io/loadbvh.py`), and the two audio/motion temporal-alignment routines
(`scripts/build_ml_dataset.py`, `scripts/auto_beats_from_audio.py`).

Modelling conventions:
* Machine floats are modeled as exact rationals (`ℚ`); float literals such as
  `1e-9` are the corresponding exact rationals.
* Square roots (inside `np.linalg.norm` and `np.std`) are not closed over `ℚ`,
  so every function that needs one takes an abstract `sq : ℚ → ℚ` standing for
  the float square root; the proved properties hold for every such function,
  and concrete witnesses instantiate it.
* numpy exceptions (IndexError out-of-bounds time axes, ValueError shape
  mismatches on buffer assignment) are modeled by `Option`: a raising path
  returns `none`.
* numpy arrays are lists; a `(T, N, 3)` positions tensor is a list of `T` rows,
  each a list of `N` `Vec3` entries.
-/

namespace M2M

/-- 3D sample of a numpy `(T, N, 3)` positions array: one joint at one frame. -/
structure Vec3 where
  x : ℚ
  y : ℚ
  z : ℚ
  deriving DecidableEq

instance : Inhabited Vec3 := ⟨⟨0, 0, 0⟩⟩

/-- The all-zero 3-vector, default for out-of-range reads that cannot occur on
rectangular arrays. -/
def v3zero : Vec3 := ⟨0, 0, 0⟩

/-- `np.mean`: sum divided by length. numpy yields NaN on an empty array; this
total model returns 0 there, a case unreachable in the verified call paths. -/
def meanQ (l : List ℚ) : ℚ := l.sum / l.length

/-- `np.sort`: ascending sort of a rational list. -/
def sortQ (l : List ℚ) : List ℚ := l.insertionSort (· ≤ ·)

/-- `np.median`: middle order statistic for odd length, average of the two
middle order statistics for even length (0 on the empty array, where numpy
yields NaN; unreachable in the verified call paths). -/
def medianQ (l : List ℚ) : ℚ :=
  let s := sortQ l
  let n := l.length
  if n = 0 then 0
  else if n % 2 = 1 then s.getD (n / 2) 0
  else (s.getD (n / 2 - 1) 0 + s.getD (n / 2) 0) / 2

/-- `np.percentile` with its default linear-interpolation method: the value at
fractional order-statistic position `p * (n - 1) / 100`. -/
def percentileQ (l : List ℚ) (p : ℚ) : ℚ :=
  let s := sortQ l
  let n := l.length
  if n = 0 then 0
  else
    let pos : ℚ := p * (n - 1) / 100
    let i : ℤ := ⌊pos⌋
    if i < 0 then s.getD 0 0
    else if (n : ℤ) - 1 ≤ i then s.getD (n - 1) 0
    else s.getD i.toNat 0 + (pos - i) * (s.getD (i.toNat + 1) 0 - s.getD i.toNat 0)

/-- Python/numpy `round` (round half to even) of a rational, as an integer. -/
def roundHalfEven (q : ℚ) : ℤ :=
  let f : ℤ := ⌊q⌋
  if q - f < 1 / 2 then f
  else if 1 / 2 < q - f then f + 1
  else if f % 2 = 0 then f else f + 1

/-- Python `int(...)` applied to a float: truncation toward zero. -/
def intTrunc (q : ℚ) : ℤ := if q < 0 then ⌈q⌉ else ⌊q⌋

/-- `np.clip` of a scalar to `[lo, hi]`. -/
def clipQ (v lo hi : ℚ) : ℚ := min (max v lo) hi

/-- `mask.astype(float)` on one boolean entry. -/
def b2q (b : Bool) : ℚ := if b then 1 else 0

/-- Index scan underlying `np.argmax` / `np.argmin`: `upd bv v` decides whether
a newly seen value `v` beats the current best `bv`; the strict comparison makes
the first extremal index win, as in numpy. -/
def bestIdxGo (upd : ℚ → ℚ → Bool) (best : ℕ) (bv : ℚ) (i : ℕ) : List ℚ → ℕ
  | [] => best
  | v :: rest =>
    if upd bv v then bestIdxGo upd i v (i + 1) rest else bestIdxGo upd best bv (i + 1) rest

/-- `np.argmax`: first index of the maximum (0 on the empty list, where numpy
raises instead; unreachable in the verified call paths). -/
def argmaxIdx : List ℚ → ℕ
  | [] => 0
  | v :: rest => bestIdxGo (fun bv w => decide (bv < w)) 0 v 1 rest

/-- `np.argmin`: first index of the minimum. -/
def argminIdx : List ℚ → ℕ
  | [] => 0
  | v :: rest => bestIdxGo (fun bv w => decide (w < bv)) 0 v 1 rest

/-- `np.max` of a (nonempty) list. -/
def npMaxQ (l : List ℚ) : ℚ := l.foldl max (l.headD 0)

/-- `np.trapz` with unit spacing. -/
def trapzQ (l : List ℚ) : ℚ := (List.zipWith (fun a b => (a + b) / 2) l l.tail).sum

/-- `np.where` on a boolean mask: the ascending list of true indices. -/
def npWhere (mask : List Bool) : List ℕ :=
  (List.range mask.length).filter (fun i => mask.getD i false)

/-- Python `sorted(set(...))` and `np.unique`: ascending, duplicate-free. -/
def sortedDedup {α : Type} [LinearOrder α] [DecidableEq α] (l : List α) : List α :=
  (l.insertionSort (· ≤ ·)).dedup

theorem sortedDedup_pairwise {α : Type} [LinearOrder α] [DecidableEq α] (l : List α) :
    (sortedDedup l).Pairwise (· < ·) := by
  have hs : (l.insertionSort (· ≤ ·)).Pairwise (· ≤ ·) := List.sorted_insertionSort _ l
  have hle : (sortedDedup l).Pairwise (· ≤ ·) :=
    List.Pairwise.sublist (List.dedup_sublist _) hs
  have hnd : (sortedDedup l).Pairwise (· ≠ ·) := List.nodup_dedup _
  exact (hle.and hnd).imp (fun h => lt_of_le_of_ne h.1 h.2)

theorem mem_sortedDedup {α : Type} [LinearOrder α] [DecidableEq α] {a : α} {l : List α} :
    a ∈ sortedDedup l ↔ a ∈ l := by
  unfold sortedDedup
  rw [List.mem_dedup]
  exact List.mem_insertionSort _

theorem sortedDedup_eq_self {α : Type} [LinearOrder α] [DecidableEq α] {l : List α}
    (h : l.Pairwise (· < ·)) : sortedDedup l = l := by
  unfold sortedDedup
  have hs : l.Sorted (· ≤ ·) := h.imp le_of_lt
  rw [List.Sorted.insertionSort_eq hs, List.dedup_eq_self.mpr (h.imp fun hab => ne_of_lt hab)]

theorem bestIdxGo_lt (upd : ℚ → ℚ → Bool) (l : List ℚ) :
    ∀ (best : ℕ) (bv : ℚ) (i : ℕ), best < i → bestIdxGo upd best bv i l < i + l.length := by
  induction l with
  | nil => intro best bv i h; simpa [bestIdxGo] using h
  | cons v rest ih =>
    intro best bv i h
    simp only [bestIdxGo, List.length_cons]
    by_cases hu : upd bv v = true
    · rw [if_pos hu]
      have := ih i v (i + 1) (Nat.lt_succ_self i)
      omega
    · rw [if_neg hu]
      have := ih best bv (i + 1) (Nat.lt_succ_of_lt h)
      omega

theorem argmaxIdx_lt {l : List ℚ} (h : l ≠ []) : argmaxIdx l < l.length := by
  cases l with
  | nil => exact absurd rfl h
  | cons v rest =>
    have := bestIdxGo_lt (fun bv w => decide (bv < w)) rest 0 v 1 Nat.one_pos
    simpa [argmaxIdx, Nat.add_comm] using this

theorem argminIdx_lt {l : List ℚ} (h : l ≠ []) : argminIdx l < l.length := by
  cases l with
  | nil => exact absurd rfl h
  | cons v rest =>
    have := bestIdxGo_lt (fun bv w => decide (w < bv)) rest 0 v 1 Nat.one_pos
    simpa [argminIdx, Nat.add_comm] using this

theorem npWhere_pairwise (mask : List Bool) : (npWhere mask).Pairwise (· < ·) :=
  (List.pairwise_lt_range _).filter _

theorem mem_npWhere {mask : List Bool} {i : ℕ} :
    i ∈ npWhere mask ↔ i < mask.length ∧ mask.getD i false = true := by
  simp [npWhere, List.mem_filter, List.mem_range]

/-- `_ma1d`: centered moving average via edge padding and a valid-mode uniform
convolution. Mirrors the source exactly, including the output length of
numpy's valid convolution, `len(xp) - k + 1`, which differs from the input
length when `k` is even. `np.pad(..., mode="edge")` raises on an empty input;
all verified call paths guard `T = 0` first. -/
def ma1d (x : List ℚ) (k : ℤ) : List ℚ :=
  let k2 : ℕ := (max 1 k).toNat
  if k2 = 1 then x
  else
    let pad := k2 / 2
    let xp := List.replicate pad (x.headD 0) ++ x ++ List.replicate pad (x.getLastD 0)
    (List.range (xp.length + 1 - k2)).map (fun i => ((xp.drop i).take k2).sum / k2)

/-- `_ma3`: `_ma1d` on each coordinate, written into an `empty_like` `(T, 3)`
buffer; `none` models the ValueError numpy raises when a smoothed column's
length does not match `T` (which happens for even windows `k ≥ 2`). -/
def ma3 (v : List Vec3) (k : ℤ) : Option (List Vec3) :=
  let c0 := ma1d (v.map (·.x)) k
  let c1 := ma1d (v.map (·.y)) k
  let c2 := ma1d (v.map (·.z)) k
  if c0.length = v.length ∧ c1.length = v.length ∧ c2.length = v.length then
    some ((List.range v.length).map (fun i => ⟨c0.getD i 0, c1.getD i 0, c2.getD i 0⟩))
  else none

/-- Shared index formula of `_grad`: one-sided differences at the two ends,
central differences inside (`dt`-scaled). -/
def gradIdx {α : Type} (sub : α → α → α) (divc : α → ℚ → α) (d : α)
    (x : List α) (dt : ℚ) : List α :=
  let n := x.length
  (List.range n).map (fun i =>
    if i = 0 then divc (sub (x.getD 1 d) (x.getD 0 d)) dt
    else if i = n - 1 then divc (sub (x.getD (n - 1) d) (x.getD (n - 2) d)) dt
    else divc (sub (x.getD (i + 1) d) (x.getD (i - 1) d)) (2 * dt))

/-- `_grad` on a 1-D array: the `n == 1` case returns `[0.0]`; the empty case
is the IndexError numpy raises (`g[0] = ...` on an empty buffer), `none`. -/
def grad1 (x : List ℚ) (dt : ℚ) : Option (List ℚ) :=
  match x with
  | [] => none
  | [_] => some [0]
  | _ => some (gradIdx (· - ·) (· / ·) 0 x dt)

/-- `_grad` on an array with a leading time axis and further axes: this branch
has no `n == 1` special case, so `x[1, ...]` raises an IndexError whenever the
time axis is shorter than 2 (modeled as `none`). `sub`/`divc` are the
elementwise operations of the row type. -/
def gradNd {α : Type} (sub : α → α → α) (divc : α → ℚ → α) (d : α)
    (x : List α) (dt : ℚ) : Option (List α) :=
  if x.length < 2 then none else some (gradIdx sub divc d x dt)

def v3sub (a b : Vec3) : Vec3 := ⟨a.x - b.x, a.y - b.y, a.z - b.z⟩

def v3divc (a : Vec3) (c : ℚ) : Vec3 := ⟨a.x / c, a.y / c, a.z / c⟩

def rowSub (a b : List Vec3) : List Vec3 := List.zipWith v3sub a b

def rowDivc (a : List Vec3) (c : ℚ) : List Vec3 := a.map (v3divc · c)

def p2sub (a b : ℚ × ℚ) : ℚ × ℚ := (a.1 - b.1, a.2 - b.2)

def p2divc (a : ℚ × ℚ) (c : ℚ) : ℚ × ℚ := (a.1 / c, a.2 / c)

/-- `np.linalg.norm` of a 3-vector, via the abstract square root `sq`. -/
def norm3 (sq : ℚ → ℚ) (v : Vec3) : ℚ := sq (v.x ^ 2 + v.y ^ 2 + v.z ^ 2)

/-- `np.linalg.norm` of a 2-vector (horizontal plane), via `sq`. -/
def norm2 (sq : ℚ → ℚ) (p : ℚ × ℚ) : ℚ := sq (p.1 ^ 2 + p.2 ^ 2)

/-- `_local_minima`: strict on the left, non-strict on the right; boundary
samples never marked; all-false for `T < 3`. -/
def localMinimaB (x : List ℚ) : List Bool :=
  (List.range x.length).map (fun i =>
    decide (1 ≤ i) && decide (i + 1 < x.length) &&
    decide (x.getD i 0 < x.getD (i - 1) 0) && decide (x.getD i 0 ≤ x.getD (i + 1) 0))

/-- `_local_maxima`: strict on the left, non-strict on the right; boundary
samples never marked; all-false for `T < 3`. -/
def localMaximaB (x : List ℚ) : List Bool :=
  (List.range x.length).map (fun i =>
    decide (1 ≤ i) && decide (i + 1 < x.length) &&
    decide (x.getD (i - 1) 0 < x.getD i 0) && decide (x.getD (i + 1) 0 ≤ x.getD i 0))

/-- `_robust_norm` with explicit percentile/threshold arguments. -/
def robustNormP (x : List ℚ) (lo hi eps : ℚ) : List ℚ :=
  if x.length = 0 then x
  else
    let a := percentileQ x lo
    let b := percentileQ x hi
    if b - a < eps then x.map (fun _ => 0)
    else x.map (fun v => clipQ ((v - a) / (b - a)) 0 1)

/-- `_robust_norm` at its default arguments `lo=5.0, hi=95.0, eps=1e-9`. -/
def robustNorm (x : List ℚ) : List ℚ := robustNormP x 5 95 (1 / 1000000000)

/-- Suppression window of `_nms_basic`: `max(1, int(round(min_sep_s * fps)))`. -/
def winOf (fps minSep : ℚ) : ℕ := (max 1 (roundHalfEven (minSep * fps))).toNat

/-- `taken[lo:hi] = True` on a boolean list. -/
def setRange (t : List Bool) (lo hi : ℕ) : List Bool :=
  t.mapIdx (fun i b => if lo ≤ i ∧ i < hi then true else b)

/-- The greedy loop of `_nms_basic` over candidates in descending-score order:
keep `i` unless already suppressed, then suppress `taken[max(0,i-win) : min(T,i+win+1)]`. -/
def nmsGreedy (T win : ℕ) : List ℕ → List Bool → List ℕ
  | [], _ => []
  | i :: rest, taken =>
    if taken.getD i false then nmsGreedy T win rest taken
    else i :: nmsGreedy T win rest (setRange taken (i - win) (min T (i + win + 1)))

/-- `_nms_basic`. numpy's `argsort` uses an unstable sort, so the relative
order of equal scores is unspecified in the source; insertion sort fixes one
such order. The verified properties do not depend on the tie order. -/
def nmsBasic (score : List ℚ) (fps minSep : ℚ) : List ℕ :=
  let idx := npWhere (localMaximaB score)
  if idx = [] then []
  else
    let ordered := (idx.insertionSort (fun a b => score.getD a 0 ≤ score.getD b 0)).reverse
    let picked := nmsGreedy score.length (winOf fps minSep) ordered (List.replicate score.length false)
    picked.insertionSort (· ≤ ·)

/-- Sequential state scan of `_hysteresis_mask`, carrying the `on` flag. -/
def hystGo (thrHi thrLo : ℚ) (st : Bool) : List ℚ → List Bool
  | [] => []
  | s :: rest =>
    let st2 := if !st && decide (thrHi ≤ s) then true
               else if st && decide (s < thrLo) then false
               else st
    st2 :: hystGo thrHi thrLo st2 rest

/-- `_hysteresis_mask`. -/
def hysteresisMask (score : List ℚ) (thrHi thrLo : ℚ) : List Bool :=
  hystGo thrHi thrLo false score

/-- `_prominence_and_area`: peak height above the larger of two local
baselines, and clipped trapezoidal area, both over `[i-radius, i+radius]`. -/
def prominenceAndArea (x : List ℚ) (i radius : ℕ) : ℚ × ℚ :=
  let lo := i - radius
  let hi := min x.length (i + radius + 1)
  let win := (x.drop lo).take (hi - lo)
  let peak := x.getD i 0
  let base1 := win.foldl min (win.headD 0)
  let base2 := min (if 0 < lo then x.getD lo 0 else peak)
                   (if hi < x.length then x.getD (hi - 1) 0 else peak)
  (peak - max base1 base2, trapzQ (win.map (fun v => max v 0)))

/-- `np.std` (population, ddof 0) via the abstract square root. -/
def stdQ (sq : ℚ → ℚ) (l : List ℚ) : ℚ := sq (meanQ (l.map (fun v => (v - meanQ l) ^ 2)))

/-- Nonnegative-lag autocorrelation: `np.correlate(x, x, "full")[x.size - 1:]`. -/
def autocorrPos (x : List ℚ) : List ℚ :=
  let n := x.length
  (List.range n).map (fun k =>
    ((List.range (n - k)).map (fun i => x.getD i 0 * x.getD (i + k) 0)).sum)

/-- `_estimate_period_from_autocorr`: `None` for signals shorter than 8 samples
or when the argmax over the (first-two-lags-zeroed) autocorrelation is lag 0. -/
def estimatePeriodFromAutocorr (sq : ℚ → ℚ) (x : List ℚ) (fps : ℚ) : Option ℚ :=
  if x.length < 8 then none
  else
    let xn := x.map (fun v => (v - meanQ x) / (stdQ sq x + 1 / 1000000000))
    let ac := (autocorrPos xn).mapIdx (fun k v => if k < 2 then 0 else v)
    let k := argmaxIdx ac
    if k = 0 then none else some ((k : ℚ) / fps)

/-- `_valid_idx`: not `None` and inside `[0, N)`. -/
def validIdx (idx : Option ℤ) (N : ℕ) : Bool :=
  match idx with
  | none => false
  | some i => decide (0 ≤ i) && decide (i < (N : ℤ))

/-- `_safe_idx`: the index if valid, else `None`. -/
def safeIdx (idx : Option ℤ) (J : ℕ) : Option ℤ :=
  match idx with
  | none => none
  | some i => if 0 ≤ i ∧ i < (J : ℤ) then some i else none

/-- `_estimate_ground_level`: lower quantile of a height trajectory. -/
def estimateGroundLevel (y : List ℚ) (q : ℚ) : ℚ :=
  if y.length = 0 then 0 else percentileQ y (q * 100)

/-- Column `j` of a `(T, N, 3)` positions array: `positions[:, j, :]`. -/
def jointCol (positions : List (List Vec3)) (j : ℕ) : List Vec3 :=
  positions.map (fun row => row.getD j v3zero)

/-- `_leg_length`: median pelvis-to-foot distance over frames, floored away
from zero. -/
def legLength (sq : ℚ → ℚ) (positions : List (List Vec3))
    (pelvisIdx lfootIdx rfootIdx : Option ℤ) : ℚ :=
  let J := (positions.headD []).length
  let pj := safeIdx pelvisIdx J
  let lf := safeIdx lfootIdx J
  let rf := safeIdx rfootIdx J
  match pj with
  | none => 1
  | some p =>
    if lf = none ∧ rf = none then 1
    else
      let pel := jointCol positions p.toNat
      let dl := match lf with
        | some fi => List.zipWith (fun a b => norm3 sq (v3sub a b)) pel (jointCol positions fi.toNat)
        | none => []
      let dr := match rf with
        | some fi => List.zipWith (fun a b => norm3 sq (v3sub a b)) pel (jointCol positions fi.toNat)
        | none => []
      max (medianQ (dl ++ dr)) (1 / 1000000)

/-- A Python for-loop building a list where every iteration may raise:
an exception in any step propagates, so the loop yields `none` if any step
does, and the collected results in order otherwise. -/
def optionMapM {α β : Type} (f : α → Option β) : List α → Option (List β)
  | [] => some []
  | a :: l => (f a).bind (fun b => (optionMapM f l).bind (fun r => some (b :: r)))

theorem optionMapM_mem {α β : Type} {f : α → Option β} {l : List α} {r : List β}
    (h : optionMapM f l = some r) : ∀ b ∈ r, ∃ a ∈ l, f a = some b := by
  induction l generalizing r with
  | nil =>
    simp only [optionMapM, Option.some.injEq] at h
    subst h; intro b hb; exact absurd hb (List.not_mem_nil b)
  | cons a t ih =>
    simp only [optionMapM, Option.bind_eq_some, Option.some.injEq] at h
    obtain ⟨b0, hb0, r0, hr0, hr⟩ := h
    subst hr
    intro b hb
    rcases List.mem_cons.mp hb with hb | hb
    · exact ⟨a, List.mem_cons_self a t, hb ▸ hb0⟩
    · obtain ⟨a2, ha2, hfa2⟩ := ih hr0 b hb
      exact ⟨a2, List.mem_cons_of_mem a ha2, hfa2⟩

/-- The per-joint smoothing loop shared by `_body_speed_trace`,
`_cue_global_accel` and `_cue_reversal`:
`Xs[:, j, :] = _ma3(positions_sel[:, j, :], smooth_win)` for every selected
joint `j`, the result viewed again as rows along the time axis. -/
def smoothJoints (sel : List (List Vec3)) (k : ℤ) : Option (List (List Vec3)) :=
  (optionMapM (fun j => ma3 (jointCol sel j) k) (List.range (sel.headD []).length)).map
    (fun cols => (List.range sel.length).map (fun i => cols.map (fun c => c.getD i v3zero)))

/-- `_grad` on a `(T, J, 3)` tensor: rows of `Vec3` along the time axis. -/
def gradRows (x : List (List Vec3)) (dt : ℚ) : Option (List (List Vec3)) :=
  gradNd rowSub rowDivc [] x dt

/-- `_grad` on a `(T, 2)` array. -/
def gradPairs (x : List (ℚ × ℚ)) (dt : ℚ) : Option (List (ℚ × ℚ)) :=
  gradNd p2sub p2divc (0, 0) x dt

/-- `_body_speed_trace`: smooth selected joints, per-joint speeds, per-frame
median across joints. -/
def bodySpeedTrace (sq : ℚ → ℚ) (sel : List (List Vec3)) (dt : ℚ) (k : ℤ) :
    Option (List ℚ) := do
  let xs ← smoothJoints sel k
  let v ← gradRows xs dt
  let speedJ := v.map (fun row => row.map (norm3 sq))
  pure (speedJ.map medianQ)

/-- `_cue_deceleration`. -/
def cueDeceleration (speed : List ℚ) (dt : ℚ) : Option (List ℚ) := do
  let dsdt ← grad1 speed dt
  let decel := dsdt.map (fun v => max (-v) 0)
  pure (robustNorm (List.zipWith (fun m d => m * d) ((localMinimaB speed).map b2q) decel))

/-- `_cue_pelvis_drop`: all-zero for an invalid pelvis index, otherwise
height minima weighted by upward vertical acceleration. -/
def cuePelvisDrop (positions : List (List Vec3)) (pelvisIdx : Option ℤ)
    (dt : ℚ) (k : ℤ) : Option (List ℚ) :=
  let T := positions.length
  let N := (positions.headD []).length
  if validIdx pelvisIdx N = false then some (List.replicate T 0)
  else do
    let pelvis ← ma3 (jointCol positions (pelvisIdx.getD 0).toNat) k
    let y := pelvis.map (·.y)
    let vy ← grad1 y dt
    let ay ← grad1 vy dt
    let mins := (localMinimaB y).map b2q
    let bounce := ay.map (fun v => max v 0)
    pure (robustNorm (List.zipWith (fun m b => m * b) mins bounce))

/-- `_cue_foot_contact`. The `qSpeed` parameter is accepted but unused by the
current source body (only the commented-out older logic used it). -/
def cueFootContact (sq : ℚ → ℚ) (positions : List (List Vec3)) (footIdx : Option ℤ)
    (dt : ℚ) (k : ℤ) (qSpeed groundQ legScale : ℚ) : Option (List ℚ) :=
  let T := positions.length
  let N := (positions.headD []).length
  if validIdx footIdx N = false ∨ T = 0 then some (List.replicate T 0)
  else do
    let foot ← ma3 (jointCol positions (footIdx.getD 0).toNat) k
    let y := foot.map (·.y)
    let xy := foot.map (fun v => (v.x, v.z))
    let g := estimateGroundLevel y groundQ
    let yRel := y.map (fun v => max 0 (v - g) / max legScale (1 / 1000000))
    let vxy ← gradPairs xy dt
    let sp := vxy.map (norm2 sq)
    let vy ← grad1 yRel dt
    let vyAbs := vy.map (fun v => |v|)
    let hNorm := robustNorm yRel
    let sNorm := robustNorm sp
    let vyNorm := robustNorm vyAbs
    let heightScore := hNorm.map (fun v => 1 - v)
    let speedScore := sNorm.map (fun v => 1 - v)
    let base := List.zipWith (fun a b => a * b) heightScore speedScore
    let minimaBonus := (localMinimaB yRel).map (fun b => 1 + 3 / 10 * b2q b)
    let raw := List.zipWith (fun a b => a * b)
      (List.zipWith (fun a b => a * b) base vyNorm) minimaBonus
    pure (robustNorm raw)

/-- `_cue_global_accel`. -/
def cueGlobalAccel (sq : ℚ → ℚ) (sel : List (List Vec3)) (dt : ℚ) (k : ℤ) :
    Option (List ℚ) := do
  let xs ← smoothJoints sel k
  let v ← gradRows xs dt
  let a ← gradRows v dt
  let accJ := a.map (fun row => row.map (norm3 sq))
  pure (robustNorm (accJ.map medianQ))

/-- `_cue_reversal`. -/
def cueReversal (sq : ℚ → ℚ) (sel : List (List Vec3)) (dt : ℚ) (k : ℤ) :
    Option (List ℚ) := do
  let xs ← smoothJoints sel k
  let v ← gradRows xs dt
  let m := (v.map (fun row => row.map (norm3 sq))).map medianQ
  let dm ← grad1 m dt
  let rev := List.zipWith (fun d mb => max (-d) 0 * mb) dm ((localMinimaB m).map b2q)
  pure (robustNorm rev)

theorem ma3_some_length {v : List Vec3} {k : ℤ} {w : List Vec3}
    (h : ma3 v k = some w) : w.length = v.length := by
  unfold ma3 at h
  dsimp only at h
  split at h
  · simp only [Option.some.injEq] at h
    subst h; simp
  · exact absurd h (by simp)

theorem gradIdx_length {α : Type} (sub : α → α → α) (divc : α → ℚ → α) (d : α)
    (x : List α) (dt : ℚ) : (gradIdx sub divc d x dt).length = x.length := by
  simp [gradIdx]

theorem gradNd_some_length {α : Type} {sub : α → α → α} {divc : α → ℚ → α} {d : α}
    {x g : List α} {dt : ℚ} (h : gradNd sub divc d x dt = some g) :
    g.length = x.length := by
  unfold gradNd at h
  split at h
  · exact absurd h (by simp)
  · simp only [Option.some.injEq] at h
    subst h; exact gradIdx_length _ _ _ _ _

theorem grad1_some_length {x g : List ℚ} {dt : ℚ} (h : grad1 x dt = some g) :
    g.length = x.length := by
  match x with
  | [] => simp [grad1] at h
  | [a] =>
    simp only [grad1, Option.some.injEq] at h
    subst h; rfl
  | a :: b :: t =>
    simp only [grad1, Option.some.injEq] at h
    subst h; exact gradIdx_length _ _ _ _ _

theorem robustNormP_length (x : List ℚ) (lo hi eps : ℚ) :
    (robustNormP x lo hi eps).length = x.length := by
  unfold robustNormP
  split
  · rfl
  · dsimp only
    split <;> simp

theorem robustNorm_length (x : List ℚ) : (robustNorm x).length = x.length :=
  robustNormP_length x 5 95 (1 / 1000000000)

theorem localMinimaB_length (x : List ℚ) : (localMinimaB x).length = x.length := by
  simp [localMinimaB]

theorem localMaximaB_length (x : List ℚ) : (localMaximaB x).length = x.length := by
  simp [localMaximaB]

theorem smoothJoints_some_length {sel : List (List Vec3)} {k : ℤ} {xs : List (List Vec3)}
    (h : smoothJoints sel k = some xs) : xs.length = sel.length := by
  unfold smoothJoints at h
  rw [Option.map_eq_some'] at h
  obtain ⟨cols, _, hxs⟩ := h
  subst hxs; simp

theorem bodySpeedTrace_some_length {sq : ℚ → ℚ} {sel : List (List Vec3)} {dt : ℚ} {k : ℤ}
    {s : List ℚ} (h : bodySpeedTrace sq sel dt k = some s) : s.length = sel.length := by
  unfold bodySpeedTrace at h
  simp only [bind, Option.bind_eq_some, Option.some.injEq, pure] at h
  obtain ⟨xs, hxs, v, hv, hs⟩ := h
  subst hs
  simp [gradNd_some_length hv, smoothJoints_some_length hxs]

theorem cueDeceleration_some_length {speed : List ℚ} {dt : ℚ} {c : List ℚ}
    (h : cueDeceleration speed dt = some c) : c.length = speed.length := by
  unfold cueDeceleration at h
  simp only [bind, Option.bind_eq_some, Option.some.injEq, pure] at h
  obtain ⟨dsdt, hd, hc⟩ := h
  subst hc
  simp [robustNorm_length, localMinimaB_length, grad1_some_length hd]

theorem cuePelvisDrop_some_length {positions : List (List Vec3)} {pelvisIdx : Option ℤ}
    {dt : ℚ} {k : ℤ} {c : List ℚ} (h : cuePelvisDrop positions pelvisIdx dt k = some c) :
    c.length = positions.length := by
  unfold cuePelvisDrop at h
  dsimp only at h
  split at h
  · simp only [Option.some.injEq] at h
    subst h; simp
  · simp only [bind, Option.bind_eq_some, Option.some.injEq, pure] at h
    obtain ⟨pelvis, hp, vy, hvy, ay, hay, hc⟩ := h
    subst hc
    have hpl : pelvis.length = positions.length := by
      simpa [jointCol] using ma3_some_length hp
    have hyl : (pelvis.map Vec3.y).length = positions.length := by simpa using hpl
    simp [robustNorm_length, localMinimaB_length, grad1_some_length hay,
      grad1_some_length hvy, hyl, hpl]

theorem cueFootContact_some_length {sq : ℚ → ℚ} {positions : List (List Vec3)}
    {footIdx : Option ℤ} {dt : ℚ} {k : ℤ} {qSpeed groundQ legScale : ℚ} {c : List ℚ}
    (h : cueFootContact sq positions footIdx dt k qSpeed groundQ legScale = some c) :
    c.length = positions.length := by
  unfold cueFootContact at h
  dsimp only at h
  split at h
  · simp only [Option.some.injEq] at h
    subst h; simp
  · simp only [bind, Option.bind_eq_some, Option.some.injEq, pure] at h
    obtain ⟨foot, hf, vxy, hvxy, vy, hvy, hc⟩ := h
    subst hc
    have hfl : foot.length = positions.length := by
      simpa [jointCol] using ma3_some_length hf
    simp [robustNorm_length, localMinimaB_length, grad1_some_length hvy,
      gradNd_some_length hvxy, hfl]

theorem cueGlobalAccel_some_length {sq : ℚ → ℚ} {sel : List (List Vec3)} {dt : ℚ} {k : ℤ}
    {c : List ℚ} (h : cueGlobalAccel sq sel dt k = some c) : c.length = sel.length := by
  unfold cueGlobalAccel at h
  simp only [bind, Option.bind_eq_some, Option.some.injEq, pure] at h
  obtain ⟨xs, hxs, v, hv, a, ha, hc⟩ := h
  subst hc
  simp [robustNorm_length, gradNd_some_length ha, gradNd_some_length hv,
    smoothJoints_some_length hxs]

theorem cueReversal_some_length {sq : ℚ → ℚ} {sel : List (List Vec3)} {dt : ℚ} {k : ℤ}
    {c : List ℚ} (h : cueReversal sq sel dt k = some c) : c.length = sel.length := by
  unfold cueReversal at h
  simp only [bind, Option.bind_eq_some, Option.some.injEq, pure] at h
  obtain ⟨xs, hxs, v, hv, dm, hdm, hc⟩ := h
  subst hc
  have hvl : v.length = sel.length := by
    rw [gradNd_some_length hv, smoothJoints_some_length hxs]
  have hml : ((v.map (fun row => row.map (norm3 sq))).map medianQ).length = sel.length := by
    simpa using hvl
  have hdl := grad1_some_length hdm
  simp only [robustNorm_length, List.length_zipWith, List.length_map]
  rw [hdl]
  simp only [List.length_map] at hml ⊢
  rw [localMinimaB_length]
  simp [hml, hvl]

theorem setRange_length (t : List Bool) (lo hi : ℕ) : (setRange t lo hi).length = t.length :=
  List.length_mapIdx

theorem setRange_getD {t : List Bool} {lo hi i : ℕ} :
    (setRange t lo hi).getD i false = true ↔
      (i < t.length ∧ lo ≤ i ∧ i < hi) ∨ t.getD i false = true := by
  by_cases hb : i < t.length
  · have hb2 : i < (setRange t lo hi).length := by rw [setRange_length]; exact hb
    rw [List.getD_eq_getElem _ _ hb2, List.getD_eq_getElem _ _ hb]
    unfold setRange
    rw [List.getElem_mapIdx]
    by_cases hc : lo ≤ i ∧ i < hi
    · simp [hc, hb]
    · simp [hc]
  · rw [List.getD_eq_default _ _ (by rw [setRange_length]; omega),
      List.getD_eq_default _ _ (by omega)]
    simp; omega

theorem nmsGreedy_subset {T win : ℕ} :
    ∀ {order : List ℕ} {taken : List Bool} {p : ℕ},
      p ∈ nmsGreedy T win order taken → p ∈ order := by
  intro order
  induction order with
  | nil => intro taken p h; simp [nmsGreedy] at h
  | cons i rest ih =>
    intro taken p h
    unfold nmsGreedy at h
    split at h
    · exact List.mem_cons_of_mem i (ih h)
    · rcases List.mem_cons.mp h with h | h
      · exact h ▸ List.mem_cons_self i rest
      · exact List.mem_cons_of_mem i (ih h)

theorem nmsGreedy_invariant (T win : ℕ) :
    ∀ (order : List ℕ) (taken : List Bool),
      taken.length = T → (∀ p ∈ order, p < T) →
      (∀ p ∈ nmsGreedy T win order taken, taken.getD p false = false) ∧
        (nmsGreedy T win order taken).Pairwise (fun a b => win < Nat.dist a b) := by
  intro order
  induction order with
  | nil => intro taken _ _; exact ⟨by simp [nmsGreedy], by simp [nmsGreedy]⟩
  | cons i rest ih =>
    intro taken hlen horder
    have horder2 : ∀ p ∈ rest, p < T := fun p hp => horder p (List.mem_cons_of_mem i hp)
    unfold nmsGreedy
    split
    · exact ih taken hlen horder2
    · rename_i htaken
      have htaken2 : taken.getD i false = false := by
        cases hv : taken.getD i false
        · rfl
        · exact absurd hv htaken
      obtain ⟨ih1, ih2⟩ := ih (setRange taken (i - win) (min T (i + win + 1)))
        (by rw [setRange_length]; exact hlen) horder2
      set r := nmsGreedy T win rest (setRange taken (i - win) (min T (i + win + 1))) with hr
      have hmemr : ∀ p ∈ r, p < T := fun p hp => horder2 p (nmsGreedy_subset hp)
      have hclear : ∀ p ∈ r, taken.getD p false = false := by
        intro p hp
        have h2 := ih1 p hp
        cases hv : taken.getD p false
        · rfl
        · exact absurd (setRange_getD.mpr (Or.inr hv)) (by rw [h2]; simp)
      have hfar : ∀ p ∈ r, win < Nat.dist i p := by
        intro p hp
        have h2 := ih1 p hp
        have hpT : p < T := hmemr p hp
        have hnot : ¬ ((p < taken.length ∧ i - win ≤ p ∧ p < min T (i + win + 1)) ∨
            taken.getD p false = true) := by
          intro hc
          exact absurd (setRange_getD.mpr hc) (by rw [h2]; simp)
        push_neg at hnot
        have := hnot.1
        rw [hlen] at this
        have h3 : ¬ (i - win ≤ p ∧ p < min T (i + win + 1)) := by
          intro hc; exact absurd (this hpT hc.1) (by omega)
        simp only [Nat.dist]
        omega
      constructor
      · intro p hp
        rcases List.mem_cons.mp hp with hpi | hpr
        · exact hpi ▸ htaken2
        · exact hclear p hpr
      · exact List.pairwise_cons.mpr ⟨hfar, ih2⟩

theorem winOf_pos (fps minSep : ℚ) : 0 < winOf fps minSep := by
  unfold winOf
  have h := le_max_left (1 : ℤ) (roundHalfEven (minSep * fps))
  omega

theorem nmsBasic_picked_props (score : List ℚ) (fps minSep : ℚ) :
    (∀ e ∈ nmsBasic score fps minSep,
        e < score.length ∧ (localMaximaB score).getD e false = true) ∧
      (nmsBasic score fps minSep).Pairwise
        (fun a b => winOf fps minSep < Nat.dist a b) ∧
      (nmsBasic score fps minSep).Pairwise (· < ·) := by
  unfold nmsBasic
  dsimp only
  split
  · exact ⟨by simp, by simp, by simp⟩
  · set idx := npWhere (localMaximaB score) with hidx
    set ordered := (idx.insertionSort (fun a b => score.getD a 0 ≤ score.getD b 0)).reverse
      with hordered
    set picked := nmsGreedy score.length (winOf fps minSep) ordered
      (List.replicate score.length false) with hpicked
    have hmemo : ∀ p ∈ ordered, p ∈ idx := by
      intro p hp
      rw [hordered, List.mem_reverse] at hp
      exact (List.mem_insertionSort _).mp hp
    have hmaxima : ∀ p ∈ ordered, p < (localMaximaB score).length ∧
        (localMaximaB score).getD p false = true :=
      fun p hp => mem_npWhere.mp (hmemo p hp)
    have horder : ∀ p ∈ ordered, p < score.length := by
      intro p hp
      have := (hmaxima p hp).1
      rwa [localMaximaB_length] at this
    obtain ⟨_, hsep⟩ := nmsGreedy_invariant score.length (winOf fps minSep) ordered
      (List.replicate score.length false) (by simp) horder
    rw [← hpicked] at hsep
    have hperm : (picked.insertionSort (· ≤ ·)).Perm picked := List.perm_insertionSort _ _
    have hsymm : ∀ {a b : ℕ}, winOf fps minSep < Nat.dist a b →
        winOf fps minSep < Nat.dist b a := by
      intro a b h; rwa [Nat.dist_comm]
    have hsep2 : (picked.insertionSort (· ≤ ·)).Pairwise
        (fun a b => winOf fps minSep < Nat.dist a b) :=
      (List.Perm.pairwise_iff hsymm hperm).mpr hsep
    refine ⟨?_, hsep2, ?_⟩
    · intro e he
      have he2 : e ∈ picked := hperm.mem_iff.mp he
      have he3 : e ∈ ordered := nmsGreedy_subset he2
      exact ⟨horder e he3, (hmaxima e he3).2⟩
    · have hno : (picked.insertionSort (· ≤ ·)).Pairwise (· ≠ ·) :=
        hsep2.imp (fun h => by
          have := winOf_pos fps minSep
          intro heq; subst heq; simp [Nat.dist] at h)
      have hle : (picked.insertionSort (· ≤ ·)).Pairwise (· ≤ ·) :=
        List.sorted_insertionSort _ _
      exact (hle.and hno).imp (fun h => lt_of_le_of_ne h.1 h.2)

theorem localMaximaB_getD {x : List ℚ} {i : ℕ} (hi : i < x.length)
    (h : (localMaximaB x).getD i false = true) :
    1 ≤ i ∧ i + 1 < x.length ∧ x.getD (i - 1) 0 < x.getD i 0 ∧
      x.getD (i + 1) 0 ≤ x.getD i 0 := by
  have hi2 : i < (localMaximaB x).length := by rwa [localMaximaB_length]
  rw [List.getD_eq_getElem _ _ hi2] at h
  unfold localMaximaB at h
  simp only [List.getElem_map, List.getElem_range, Bool.and_eq_true,
    decide_eq_true_eq] at h
  exact ⟨h.1.1.1, h.1.1.2, h.1.2, h.2⟩

/-- The window search of one phase-snap iteration: nearest local minimum of
the foot height `y` inside `[ei-r, ei+r]` if one exists, else the frame of
maximum jerk `jy` in that window. -/
def snapWindowPick (y jy : List ℚ) (r T ei : ℕ) : ℕ :=
  let lo := ei - r
  let hi := min T (ei + r + 1)
  let win := List.range' lo (hi - lo)
  let minsWin := ((localMinimaB y).drop lo).take (hi - lo)
  let cand := ((win.zip minsWin).filter (fun p => p.2)).map (fun p => p.1)
  if cand.isEmpty = false then
    cand.getD (argminIdx (cand.map (fun c => ((Nat.dist c ei : ℕ) : ℚ)))) 0
  else lo + argmaxIdx ((jy.drop lo).take (hi - lo))

/-- One iteration of the phase-snap loop shared by `extract_beats_v1` and
`extract_beats_v2`: choose the foot with the higher contact cue at the event
(ties favor the left foot, as `C_lfoot[ei] >= C_rfoot[ei]` does); keep the
event if that foot index is invalid; otherwise snap via `snapWindowPick` on
that foot's height and jerk. -/
def snapEvent (positions : List (List Vec3)) (dt : ℚ) (r T N : ℕ)
    (cLfoot cRfoot : List ℚ) (lf rf : Option ℤ) (ei : ℕ) : Option ℕ :=
  let useLeft := decide (cRfoot.getD ei 0 ≤ cLfoot.getD ei 0)
  let fidx := if useLeft then lf else rf
  if validIdx fidx N = false then some ei
  else do
    let y := positions.map (fun row => (row.getD (fidx.getD 0).toNat v3zero).y)
    let vy ← grad1 y dt
    let ay ← grad1 vy dt
    let jy0 ← grad1 ay dt
    pure (snapWindowPick y (jy0.map (fun v => |v|)) r T ei)

theorem snapWindowPick_lt {y jy : List ℚ} {r T ei : ℕ}
    (hjy : jy.length = T) (hei : ei < T) : snapWindowPick y jy r T ei < T := by
  unfold snapWindowPick
  dsimp only
  have hlo : ei - r < min T (ei + r + 1) := by omega
  split
  · rename_i hcand
    set cand := ((List.range' (ei - r) (min T (ei + r + 1) - (ei - r))).zip
      (((localMinimaB y).drop (ei - r)).take (min T (ei + r + 1) - (ei - r)))).filter
        (fun p => p.2) with hcanddef
    have hne : cand.map (fun p => p.1) ≠ [] := by
      intro hempty
      rw [hempty] at hcand
      simp at hcand
    have hidx : argminIdx ((cand.map (fun p => p.1)).map
        (fun c => ((Nat.dist c ei : ℕ) : ℚ))) < (cand.map (fun p => p.1)).length := by
      have := argminIdx_lt (l := (cand.map (fun p => p.1)).map
        (fun c => ((Nat.dist c ei : ℕ) : ℚ))) (by simpa using hne)
      simpa using this
    have hmem : (cand.map (fun p => p.1)).getD (argminIdx ((cand.map (fun p => p.1)).map
        (fun c => ((Nat.dist c ei : ℕ) : ℚ)))) 0 ∈ cand.map (fun p => p.1) := by
      rw [List.getD_eq_getElem _ _ hidx]
      exact List.getElem_mem _
    obtain ⟨⟨a, b⟩, hab, habeq⟩ := List.mem_map.mp hmem
    have hawin : a ∈ List.range' (ei - r) (min T (ei + r + 1) - (ei - r)) :=
      (List.of_mem_zip (List.mem_filter.mp hab).1).1
    obtain ⟨i2, hi2, hi2eq⟩ := List.mem_range'.mp hawin
    simp only at habeq
    omega
  · have hslice : ((jy.drop (ei - r)).take (min T (ei + r + 1) - (ei - r))).length
        = min T (ei + r + 1) - (ei - r) := by
      rw [List.length_take, List.length_drop, hjy]
      omega
    have hne2 : (jy.drop (ei - r)).take (min T (ei + r + 1) - (ei - r)) ≠ [] := by
      intro hempty
      rw [hempty] at hslice
      simp at hslice
      omega
    have := argmaxIdx_lt hne2
    rw [hslice] at this
    omega

theorem snapEvent_some_lt {positions : List (List Vec3)} {dt : ℚ} {r T N : ℕ}
    {cL cR : List ℚ} {lf rf : Option ℤ} {ei o : ℕ}
    (hT : positions.length = T) (hei : ei < T)
    (h : snapEvent positions dt r T N cL cR lf rf ei = some o) : o < T := by
  unfold snapEvent at h
  set fidx := if decide (cR.getD ei 0 ≤ cL.getD ei 0) = true then lf else rf with hfidx
  by_cases hv : validIdx fidx N = false
  · rw [if_pos hv] at h
    simp only [Option.some.injEq] at h
    omega
  · rw [if_neg hv] at h
    simp only [bind, Option.bind_eq_some, Option.some.injEq, pure] at h
    obtain ⟨vy, hvy, ay, hay, jy0, hjy0, h⟩ := h
    subst h
    have hylen : (positions.map (fun row =>
        (row.getD (fidx.getD 0).toNat v3zero).y)).length = T := by simpa using hT
    have hjlen : (jy0.map (fun v => |v|)).length = T := by
      rw [List.length_map, grad1_some_length hjy0, grad1_some_length hay,
        grad1_some_length hvy, hylen]
    exact snapWindowPick_lt hjlen hei

/-- `_as_int_sorted_unique`: `np.unique` then an (already no-op) sort. -/
def asIntSortedUnique (l : List ℤ) : List ℤ := sortedDedup l

/-- Closed-form least-squares line fit `ys ≈ a + b * xs`, returned as
(slope, intercept) exactly as `b, a = np.polyfit(xs, ys, 1)` unpacks it; this
is the normal-equations solution `np.polyfit` computes. -/
def polyfit1 (xs ys : List ℚ) : ℚ × ℚ :=
  let n : ℚ := xs.length
  let sx := xs.sum
  let sy := ys.sum
  let sxy := (List.zipWith (fun a b => a * b) xs ys).sum
  let sxx := (xs.map (fun v => v ^ 2)).sum
  let b := (n * sxy - sx * sy) / (n * sxx - sx ^ 2)
  (b, (sy - b * sx) / n)

/-- The residual / MAD-outlier / refit stage of `refine_events_with_tempo`,
from `pred = a + b * k` to the final prediction list: `none` models the early
`return ev` taken when the refit slope is again too small; otherwise the
predictions used by the snap loop. -/
def refinePredF (ev : List ℤ) (fit : ℚ × ℚ) (minEvents : ℤ) : Option (List ℚ) :=
  let ks : List ℚ := (List.range ev.length).map (fun i : ℕ => (i : ℚ))
  let evq : List ℚ := ev.map (fun e : ℤ => (e : ℚ))
  let pred := ks.map (fun kk => fit.2 + fit.1 * kk)
  let resid := List.zipWith (fun e p => e - p) evq pred
  let medR := medianQ resid
  let mad := medianQ (resid.map (fun v => |v - medR|)) + 1 / 1000000000
  let good := resid.map (fun v => decide (|v| ≤ 35 / 10 * mad))
  let ng := good.count true
  if minEvents ≤ (ng : ℤ) ∧ ng < ev.length then
    let fit2 := polyfit1 (((good.zip ks).filter (fun p => p.1)).map (fun p => p.2))
                         (((good.zip evq).filter (fun p => p.1)).map (fun p => p.2))
    if fit2.1 ≤ 1 / 2 then none
    else some (ks.map (fun kk => fit2.2 + fit2.1 * kk))
  else some pred

/-- The snap loop of `refine_events_with_tempo`: for each predicted frame,
round, clamp the `±drift` window to `[0, T)`, skip empty windows, else take
the frame of maximum score in the window. -/
def refineSnapLoop (predF : List ℚ) (score : List ℚ) (drift : ℕ) : List ℤ :=
  predF.filterMap (fun p =>
    let c := roundHalfEven p
    let lo := max 0 (c - (drift : ℤ))
    let hi := min ((score.length : ℤ)) (c + (drift : ℤ) + 1)
    if hi ≤ lo then none
    else some (lo + (argmaxIdx ((score.drop lo.toNat).take (hi - lo).toNat) : ℤ)))

/-- `refine_events_with_tempo`. In exact rational arithmetic `np.isfinite` is
identically true, so the `not np.isfinite(b)` disjuncts are dropped; the
`verbose` branch only prints. -/
def refineEventsWithTempo (eventsIdx : List ℤ) (score : List ℚ) (fps : ℚ)
    (maxDrift : ℤ) (minEvents : ℤ) : List ℤ :=
  let T := score.length
  let ev0 := asIntSortedUnique eventsIdx
  if (ev0.length : ℤ) < minEvents ∨ ev0.length < 2 ∨ T = 0 then ev0
  else
    let ev := ev0.filter (fun e => decide (0 ≤ e) && decide (e < (T : ℤ)))
    if (ev.length : ℤ) < minEvents then ev
    else
      let fit := polyfit1 ((List.range ev.length).map (fun i : ℕ => (i : ℚ)))
        (ev.map (fun e : ℤ => (e : ℚ)))
      if fit.1 ≤ 1 / 2 then ev
      else
        match refinePredF ev fit minEvents with
        | none => ev
        | some predF =>
          asIntSortedUnique (refineSnapLoop predF score (max 0 maxDrift).toNat)

theorem refineSnapLoop_mem {predF score : List ℚ} {drift : ℕ} {e : ℤ}
    (h : e ∈ refineSnapLoop predF score drift) : 0 ≤ e ∧ e < (score.length : ℤ) := by
  unfold refineSnapLoop at h
  obtain ⟨p, _, hp⟩ := List.mem_filterMap.mp h
  dsimp only at hp
  split at hp
  · exact absurd hp (by simp)
  · rename_i hlt
    push_neg at hlt
    simp only [Option.some.injEq] at hp
    set c := roundHalfEven p with hc
    set lo := max 0 (c - (drift : ℤ)) with hlo
    set hi := min ((score.length : ℤ)) (c + (drift : ℤ) + 1) with hhi
    have hlo0 : (0 : ℤ) ≤ lo := le_max_left _ _
    have hhiT : hi ≤ (score.length : ℤ) := min_le_left _ _
    have hslicelen : ((score.drop lo.toNat).take (hi - lo).toNat).length
        = (hi - lo).toNat := by
      rw [List.length_take, List.length_drop]
      omega
    have hne : (score.drop lo.toNat).take (hi - lo).toNat ≠ [] := by
      intro hempty
      rw [hempty] at hslicelen
      simp at hslicelen
      omega
    have harg := argmaxIdx_lt hne
    rw [hslicelen] at harg
    omega

theorem refineEvents_invariant (eventsIdx : List ℤ) (score : List ℚ) (fps : ℚ)
    (maxDrift minEvents : ℤ)
    (hin : ∀ e ∈ eventsIdx, 0 ≤ e ∧ e < (score.length : ℤ)) :
    (refineEventsWithTempo eventsIdx score fps maxDrift minEvents).Pairwise (· < ·) ∧
      ∀ e ∈ refineEventsWithTempo eventsIdx score fps maxDrift minEvents,
        0 ≤ e ∧ e < (score.length : ℤ) := by
  unfold refineEventsWithTempo
  dsimp only
  split
  · exact ⟨sortedDedup_pairwise _, fun e he => hin e (mem_sortedDedup.mp he)⟩
  · split
    · refine ⟨(sortedDedup_pairwise _).filter _, fun e he => ?_⟩
      have := (List.mem_filter.mp he).2
      simp only [Bool.and_eq_true, decide_eq_true_eq] at this
      exact this
    · split
      · refine ⟨(sortedDedup_pairwise _).filter _, fun e he => ?_⟩
        have := (List.mem_filter.mp he).2
        simp only [Bool.and_eq_true, decide_eq_true_eq] at this
        exact this
      · split
        · refine ⟨(sortedDedup_pairwise _).filter _, fun e he => ?_⟩
          have := (List.mem_filter.mp he).2
          simp only [Bool.and_eq_true, decide_eq_true_eq] at this
          exact this
        · exact ⟨sortedDedup_pairwise _,
            fun e he => refineSnapLoop_mem (mem_sortedDedup.mp he)⟩

theorem refineEvents_noop (events : List ℤ) (score : List ℚ) (fps : ℚ)
    (maxDrift minEvents : ℤ)
    (hsorted : events.Pairwise (· < ·))
    (hin : ∀ e ∈ events, 0 ≤ e ∧ e < (score.length : ℤ)) :
    ((events.length : ℤ) < minEvents →
        refineEventsWithTempo events score fps maxDrift minEvents = events) ∧
      ((polyfit1 ((List.range events.length).map (fun i : ℕ => (i : ℚ)))
          (events.map (fun e : ℤ => (e : ℚ)))).1 ≤ 0 →
        refineEventsWithTempo events score fps maxDrift minEvents = events) := by
  have hev0 : asIntSortedUnique events = events := sortedDedup_eq_self hsorted
  have hfilter : events.filter (fun e => decide (0 ≤ e) &&
      decide (e < (score.length : ℤ))) = events := by
    rw [List.filter_eq_self]
    intro e he
    have := hin e he
    simp only [Bool.and_eq_true, decide_eq_true_eq]
    exact this
  unfold refineEventsWithTempo
  dsimp only
  rw [hev0, hfilter]
  constructor
  · intro hlt
    split
    · rfl
    · rename_i hg
      exact absurd (Or.inl hlt) hg
  · intro hslope
    split
    · rfl
    · split
      · rfl
      · split
        · rfl
        · rename_i hfit
          exact absurd (le_trans hslope (by norm_num)) hfit

/-- The `BeatParamsV1` dataclass. -/
structure BeatParamsV1 where
  smoothWin : ℤ
  scoreThreshold : ℚ
  nmsSeparationS : ℚ
  wDecel : ℚ
  wPelvis : ℚ
  wFoot : ℚ
  footSpeedQ : ℚ
  groundQ : ℚ
  useLegNorm : Bool
  adaptiveNms : Bool
  hysteresisLowFac : ℚ
  phaseSnapRadius : ℤ
  snapRecheckRadius : ℤ
  deriving DecidableEq

/-- The field defaults of `BeatParamsV1`. -/
def defaultBeatParamsV1 : BeatParamsV1 :=
  ⟨5, 3 / 5, 12 / 100, 2 / 5, 3 / 10, 3 / 10, 1 / 5, 1 / 20, true, true, 4 / 5, 3, 2⟩

/-- The `BeatParamsV2` dataclass (extends the v1 fields). -/
structure BeatParamsV2 extends BeatParamsV1 where
  wAccel : ℚ
  wReversal : ℚ
  promWindowS : ℚ
  minProminence : ℚ
  minArea : ℚ
  deriving DecidableEq

/-- The field defaults of `BeatParamsV2`. -/
def defaultBeatParamsV2 : BeatParamsV2 :=
  ⟨defaultBeatParamsV1, 1 / 5, 1 / 5, 12 / 100, 1 / 10, 1 / 10⟩

/-- The dictionary `extract_beats_v1` returns. -/
structure ExtractResultV1 where
  beatScore : List ℚ
  candidateMask : List Bool
  eventsIdx : List ℤ
  cDecel : List ℚ
  cPelvis : List ℚ
  cFoot : List ℚ
  deriving DecidableEq

/-- The dictionary `extract_beats_v2` returns. -/
structure ExtractResultV2 where
  beatScore : List ℚ
  candidateMask : List Bool
  eventsIdx : List ℤ
  cDecel : List ℚ
  cPelvis : List ℚ
  cFoot : List ℚ
  cAccel : List ℚ
  cReversal : List ℚ
  deriving DecidableEq

/-- Clamp the requested joint subset to `[0, N)`, falling back to all joints
when nothing survives. -/
def selectJidx (jointIndices : List ℤ) (N : ℕ) : List ℤ :=
  let jf := jointIndices.filter (fun j => decide (0 ≤ j) && decide (j < (N : ℤ)))
  if jf = [] then (List.range N).map (fun i : ℕ => (i : ℤ)) else jf

/-- `positions[:, Jidx, :]`. -/
def selectJoints (positions : List (List Vec3)) (jidx : List ℤ) : List (List Vec3) :=
  positions.map (fun row => jidx.map (fun j => row.getD j.toNat v3zero))

/-- Adaptive NMS separation: half the autocorrelation period clamped into
`[0.08, 0.25]` seconds when an estimate exists, else the configured default. -/
def adaptiveNmsSep (sq : ℚ → ℚ) (score : List ℚ) (fps : ℚ) (adaptive : Bool)
    (defaultSep : ℚ) : ℚ :=
  if adaptive then
    match estimatePeriodFromAutocorr sq score fps with
    | some estT => max (8 / 100) (min (25 / 100) (1 / 2 * estT))
    | none => defaultSep
  else defaultSep

/-- The phase-snap stage shared by both extractors:
`np.array(sorted(set(snapped)), dtype=int)` over the per-event snaps. -/
def phaseSnap (positions : List (List Vec3)) (dt : ℚ) (r T N : ℕ)
    (cL cR : List ℚ) (lf rf : Option ℤ) (events : List ℕ) : Option (List ℕ) := do
  let snapped ← optionMapM (snapEvent positions dt r T N cL cR lf rf) events
  pure (sortedDedup snapped)

theorem phaseSnap_props {positions : List (List Vec3)} {dt : ℚ} {r T N : ℕ}
    {cL cR : List ℚ} {lf rf : Option ℤ} {events0 out : List ℕ}
    (hT : positions.length = T) (hev : ∀ e ∈ events0, e < T)
    (h : phaseSnap positions dt r T N cL cR lf rf events0 = some out) :
    out.Pairwise (· < ·) ∧ ∀ e ∈ out, e < T := by
  unfold phaseSnap at h
  simp only [bind, Option.bind_eq_some, Option.some.injEq, pure] at h
  obtain ⟨snapped, hsn, hout⟩ := h
  subst hout
  refine ⟨sortedDedup_pairwise _, fun e he => ?_⟩
  obtain ⟨a, ha, hsa⟩ := optionMapM_mem hsn e (mem_sortedDedup.mp he)
  exact snapEvent_some_lt hT (hev a ha) hsa

theorem pairwise_coe_of_pairwise_lt {l : List ℕ} (h : l.Pairwise (· < ·)) :
    (l.map (fun i : ℕ => (i : ℤ))).Pairwise (· < ·) := by
  rw [List.pairwise_map]
  exact h.imp (fun hab => by exact_mod_cast hab)

theorem mem_coe_bounds {l : List ℕ} {T : ℕ} (h : ∀ e ∈ l, e < T) :
    ∀ e ∈ l.map (fun i : ℕ => (i : ℤ)), 0 ≤ e ∧ e < (T : ℤ) := by
  intro e he
  obtain ⟨a, ha, rfl⟩ := List.mem_map.mp he
  exact ⟨Int.ofNat_nonneg a, by exact_mod_cast h a ha⟩

/-- The event post-processing stage of `extract_beats_v1`: optional phase
snap, guarded exactly as in the source. -/
def v1EventsStage (positions : List (List Vec3)) (dt : ℚ) (snapRadius : ℤ) (T N : ℕ)
    (cL cR : List ℚ) (lf rf : Option ℤ) (events0 : List ℕ) : Option (List ℕ) :=
  if 0 < snapRadius ∧ (validIdx lf N = true ∨ validIdx rf N = true) ∧ events0 ≠ [] then
    phaseSnap positions dt snapRadius.toNat T N cL cR lf rf events0
  else pure events0

theorem v1EventsStage_props {positions : List (List Vec3)} {dt : ℚ} {snapRadius : ℤ}
    {T N : ℕ} {cL cR : List ℚ} {lf rf : Option ℤ} {events0 out : List ℕ}
    (hT : positions.length = T)
    (hb0 : ∀ e ∈ events0, e < T) (hpw0 : events0.Pairwise (· < ·))
    (h : v1EventsStage positions dt snapRadius T N cL cR lf rf events0 = some out) :
    out.Pairwise (· < ·) ∧ ∀ e ∈ out, e < T := by
  unfold v1EventsStage at h
  by_cases hc : 0 < snapRadius ∧ (validIdx lf N = true ∨ validIdx rf N = true) ∧
      events0 ≠ []
  · rw [if_pos hc] at h
    exact phaseSnap_props hT hb0 h
  · rw [if_neg hc] at h
    simp only [pure, Option.some.injEq] at h
    subst h
    exact ⟨hpw0, hb0⟩

/-- `extract_beats_v1`. -/
def extractBeatsV1 (sq : ℚ → ℚ) (positions : List (List Vec3)) (fps : ℚ)
    (jointIndices : List ℤ) (params : BeatParamsV1)
    (pelvisIdx leftFootIdx rightFootIdx : Option ℤ) : Option ExtractResultV1 :=
  let T := positions.length
  let N := (positions.headD []).length
  if T = 0 ∨ fps ≤ 0 then some ⟨[], [], [], [], [], []⟩
  else
    let dt := 1 / fps
    let sel := selectJoints positions (selectJidx jointIndices N)
    let legScale := if params.useLegNorm
      then legLength sq positions pelvisIdx leftFootIdx rightFootIdx else 1
    do
      let speed ← bodySpeedTrace sq sel dt params.smoothWin
      let cDecel ← cueDeceleration speed dt
      let cPelvis ← cuePelvisDrop positions pelvisIdx dt params.smoothWin
      let cLfoot ← cueFootContact sq positions leftFootIdx dt params.smoothWin
        params.footSpeedQ params.groundQ legScale
      let cRfoot ← cueFootContact sq positions rightFootIdx dt params.smoothWin
        params.footSpeedQ params.groundQ legScale
      let cFoot := List.zipWith max cLfoot cRfoot
      let score := robustNorm (List.zipWith (· + ·)
        (List.zipWith (· + ·) (cDecel.map (fun v => params.wDecel * v))
          (cPelvis.map (fun v => params.wPelvis * v)))
        (cFoot.map (fun v => params.wFoot * v)))
      let maskHyst := hysteresisMask score params.scoreThreshold
        (params.scoreThreshold * params.hysteresisLowFac)
      let events0 := nmsBasic score fps
        (adaptiveNmsSep sq score fps params.adaptiveNms params.nmsSeparationS)
      let events ← v1EventsStage positions dt params.phaseSnapRadius T N cLfoot cRfoot
        leftFootIdx rightFootIdx events0
      pure ⟨score, maskHyst, events.map (fun i : ℕ => (i : ℤ)), cDecel, cPelvis, cFoot⟩

/-- The prominence/area gating of `extract_beats_v2` on hysteresis-passing
local maxima. -/
def promGate (score : List ℚ) (maskHyst : List Bool) (promWin : ℕ)
    (minProm minArea : ℚ) : List ℕ :=
  (npWhere (List.zipWith (fun a b => a && b) (localMaximaB score) maskHyst)).filter
    (fun i => decide (minProm ≤ (prominenceAndArea score i promWin).1) &&
      decide (minArea ≤ (prominenceAndArea score i promWin).2))

/-- The hard recheck of `extract_beats_v2`: keep an event only when the fused
score reaches the hysteresis-high threshold within the recheck radius. -/
def hardRecheck (score : List ℚ) (thrHi : ℚ) (r T : ℕ) (events : List ℕ) : List ℕ :=
  events.filter (fun ei =>
    decide (thrHi ≤ npMaxQ ((score.drop (ei - r)).take (min T (ei + r + 1) - (ei - r)))))

/-- The event post-processing stage of `extract_beats_v2`: phase snap, hard
recheck and tempo-aware refinement under the source's guard, else the NMS
events unchanged. -/
def v2EventsStage (positions : List (List Vec3)) (dt : ℚ) (snapRadius recheckRadius : ℤ)
    (T N : ℕ) (thrHi : ℚ) (score cL cR : List ℚ) (lf rf : Option ℤ) (fps : ℚ)
    (events0 : List ℕ) : Option (List ℤ) :=
  if 0 < snapRadius ∧ (validIdx lf N = true ∨ validIdx rf N = true) ∧ events0 ≠ [] then do
    let ev1 ← phaseSnap positions dt snapRadius.toNat T N cL cR lf rf events0
    let ev2 := if ev1 ≠ [] then hardRecheck score thrHi (max 0 recheckRadius).toNat T ev1
      else ev1
    pure (refineEventsWithTempo (ev2.map (fun i : ℕ => (i : ℤ))) score fps 3 3)
  else pure (events0.map (fun i : ℕ => (i : ℤ)))

theorem v2EventsStage_props {positions : List (List Vec3)} {dt : ℚ}
    {snapRadius recheckRadius : ℤ} {T N : ℕ} {thrHi : ℚ} {score cL cR : List ℚ}
    {lf rf : Option ℤ} {fps : ℚ} {events0 : List ℕ} {out : List ℤ}
    (hT : positions.length = T) (hsl : score.length = T)
    (hb0 : ∀ e ∈ events0, e < T) (hpw0 : events0.Pairwise (· < ·))
    (h : v2EventsStage positions dt snapRadius recheckRadius T N thrHi score cL cR
      lf rf fps events0 = some out) :
    out.Pairwise (· < ·) ∧ ∀ e ∈ out, 0 ≤ e ∧ e < (T : ℤ) := by
  unfold v2EventsStage at h
  by_cases hc : 0 < snapRadius ∧ (validIdx lf N = true ∨ validIdx rf N = true) ∧
      events0 ≠ []
  · rw [if_pos hc] at h
    simp only [bind, Option.bind_eq_some, Option.some.injEq, pure] at h
    obtain ⟨ev1, hev1, hout⟩ := h
    obtain ⟨hpw1, hb1⟩ := phaseSnap_props hT hb0 hev1
    have hb2 : ∀ e ∈ (if ev1 ≠ [] then
        hardRecheck score thrHi (max 0 recheckRadius).toNat T ev1 else ev1), e < T := by
      split
      · exact fun e he => hb1 e (List.mem_filter.mp he).1
      · exact hb1
    have hin : ∀ e ∈ (if ev1 ≠ [] then
        hardRecheck score thrHi (max 0 recheckRadius).toNat T ev1
        else ev1).map (fun i : ℕ => (i : ℤ)), 0 ≤ e ∧ e < (score.length : ℤ) := by
      intro e he
      have := mem_coe_bounds hb2 e he
      rwa [hsl]
    obtain ⟨hrp, hrb⟩ := refineEvents_invariant _ score fps 3 3 hin
    rw [← hout]
    refine ⟨hrp, fun e he => ?_⟩
    have := hrb e he
    rwa [hsl] at this
  · rw [if_neg hc] at h
    simp only [pure, Option.some.injEq] at h
    subst h
    exact ⟨pairwise_coe_of_pairwise_lt hpw0, mem_coe_bounds hb0⟩

/-- `extract_beats_v2`. -/
def extractBeatsV2 (sq : ℚ → ℚ) (positions : List (List Vec3)) (fps : ℚ)
    (jointIndices : List ℤ) (params : BeatParamsV2)
    (pelvisIdx leftFootIdx rightFootIdx : Option ℤ) : Option ExtractResultV2 :=
  let T := positions.length
  let N := (positions.headD []).length
  if T = 0 ∨ fps ≤ 0 then some ⟨[], [], [], [], [], [], [], []⟩
  else
    let dt := 1 / fps
    let sel := selectJoints positions (selectJidx jointIndices N)
    let legScale := if params.useLegNorm
      then legLength sq positions pelvisIdx leftFootIdx rightFootIdx else 1
    do
      let speed ← bodySpeedTrace sq sel dt params.smoothWin
      let cDecel ← cueDeceleration speed dt
      let cPelvis ← cuePelvisDrop positions pelvisIdx dt params.smoothWin
      let cLfoot ← cueFootContact sq positions leftFootIdx dt params.smoothWin
        params.footSpeedQ params.groundQ legScale
      let cRfoot ← cueFootContact sq positions rightFootIdx dt params.smoothWin
        params.footSpeedQ params.groundQ legScale
      let cFoot := List.zipWith max cLfoot cRfoot
      let cAccel ← cueGlobalAccel sq sel dt params.smoothWin
      let cRev ← cueReversal sq sel dt params.smoothWin
      let score := robustNorm (List.zipWith (· + ·)
        (List.zipWith (· + ·)
          (List.zipWith (· + ·)
            (List.zipWith (· + ·) (cDecel.map (fun v => params.wDecel * v))
              (cPelvis.map (fun v => params.wPelvis * v)))
            (cFoot.map (fun v => params.wFoot * v)))
          (cAccel.map (fun v => params.wAccel * v)))
        (cRev.map (fun v => params.wReversal * v)))
      let thrHi := params.scoreThreshold
      let maskHyst := hysteresisMask score thrHi (thrHi * params.hysteresisLowFac)
      let candIdx := promGate score maskHyst
        ((max 1 (roundHalfEven (params.promWindowS * fps))).toNat)
        params.minProminence params.minArea
      let nmsSep := adaptiveNmsSep sq score fps params.adaptiveNms params.nmsSeparationS
      let events0 :=
        if candIdx ≠ [] then
          nmsBasic ((List.range score.length).map
            (fun i => if i ∈ candIdx then score.getD i 0 else 0)) fps nmsSep
        else []
      let events ← v2EventsStage positions dt params.phaseSnapRadius
        params.snapRecheckRadius T N thrHi score cLfoot cRfoot leftFootIdx rightFootIdx
        fps events0
      pure ⟨score, maskHyst, events, cDecel, cPelvis, cFoot, cAccel, cRev⟩

theorem selectJoints_length (positions : List (List Vec3)) (jidx : List ℤ) :
    (selectJoints positions jidx).length = positions.length := by
  simp [selectJoints]

theorem extractBeatsV1_events (sq : ℚ → ℚ) (positions : List (List Vec3)) (fps : ℚ)
    (jointIndices : List ℤ) (params : BeatParamsV1) (pelvisIdx lf rf : Option ℤ)
    (r : ExtractResultV1)
    (h : extractBeatsV1 sq positions fps jointIndices params pelvisIdx lf rf = some r) :
    r.eventsIdx.Pairwise (· < ·) ∧
      ∀ e ∈ r.eventsIdx, 0 ≤ e ∧ e < (positions.length : ℤ) := by
  unfold extractBeatsV1 at h
  dsimp only at h
  split at h
  · simp only [Option.some.injEq] at h
    subst h
    exact ⟨List.Pairwise.nil, by simp⟩
  · simp only [bind, Option.bind_eq_some, pure, Option.some.injEq] at h
    obtain ⟨speed, hsp, cD, hcd, cP, hcp, cL, hcl, cR, hcr, ev, hev, hr⟩ := h
    subst hr
    have hspl : speed.length = positions.length := by
      rw [bodySpeedTrace_some_length hsp, selectJoints_length]
    have hcDl : cD.length = positions.length := by
      rw [cueDeceleration_some_length hcd, hspl]
    have hcPl : cP.length = positions.length := cuePelvisDrop_some_length hcp
    have hcLl : cL.length = positions.length := cueFootContact_some_length hcl
    have hcRl : cR.length = positions.length := cueFootContact_some_length hcr
    set score := robustNorm (List.zipWith (· + ·)
        (List.zipWith (· + ·) (cD.map (fun v => params.wDecel * v))
          (cP.map (fun v => params.wPelvis * v)))
        ((List.zipWith max cL cR).map (fun v => params.wFoot * v))) with hscore
    have hscorelen : score.length = positions.length := by
      rw [hscore, robustNorm_length]
      simp [List.length_zipWith, hcDl, hcPl, hcLl, hcRl]
    obtain ⟨hmem0, _, hpw0⟩ := nmsBasic_picked_props score fps
      (adaptiveNmsSep sq score fps params.adaptiveNms params.nmsSeparationS)
    have hbound0 : ∀ e ∈ nmsBasic score fps
        (adaptiveNmsSep sq score fps params.adaptiveNms params.nmsSeparationS),
        e < positions.length := by
      intro e he
      have := (hmem0 e he).1
      rwa [hscorelen] at this
    obtain ⟨hp, hb⟩ := v1EventsStage_props rfl hbound0 hpw0 hev
    exact ⟨pairwise_coe_of_pairwise_lt hp, mem_coe_bounds hb⟩

theorem extractBeatsV2_events (sq : ℚ → ℚ) (positions : List (List Vec3)) (fps : ℚ)
    (jointIndices : List ℤ) (params : BeatParamsV2) (pelvisIdx lf rf : Option ℤ)
    (r : ExtractResultV2)
    (h : extractBeatsV2 sq positions fps jointIndices params pelvisIdx lf rf = some r) :
    r.eventsIdx.Pairwise (· < ·) ∧
      ∀ e ∈ r.eventsIdx, 0 ≤ e ∧ e < (positions.length : ℤ) := by
  unfold extractBeatsV2 at h
  dsimp only at h
  split at h
  · simp only [Option.some.injEq] at h
    subst h
    exact ⟨List.Pairwise.nil, by simp⟩
  · simp only [bind, Option.bind_eq_some, pure, Option.some.injEq] at h
    obtain ⟨speed, hsp, cD, hcd, cP, hcp, cL, hcl, cR, hcr, cA, hca, cV, hcv, ev, hev, hr⟩ := h
    subst hr
    have hspl : speed.length = positions.length := by
      rw [bodySpeedTrace_some_length hsp, selectJoints_length]
    have hcDl : cD.length = positions.length := by
      rw [cueDeceleration_some_length hcd, hspl]
    have hcPl : cP.length = positions.length := cuePelvisDrop_some_length hcp
    have hcLl : cL.length = positions.length := cueFootContact_some_length hcl
    have hcRl : cR.length = positions.length := cueFootContact_some_length hcr
    have hcAl : cA.length = positions.length := by
      rw [cueGlobalAccel_some_length hca, selectJoints_length]
    have hcVl : cV.length = positions.length := by
      rw [cueReversal_some_length hcv, selectJoints_length]
    set score := robustNorm (List.zipWith (· + ·)
        (List.zipWith (· + ·)
          (List.zipWith (· + ·)
            (List.zipWith (· + ·) (cD.map (fun v => params.wDecel * v))
              (cP.map (fun v => params.wPelvis * v)))
            ((List.zipWith max cL cR).map (fun v => params.wFoot * v)))
          (cA.map (fun v => params.wAccel * v)))
        (cV.map (fun v => params.wReversal * v))) with hscore
    have hscorelen : score.length = positions.length := by
      rw [hscore, robustNorm_length]
      simp [List.length_zipWith, hcDl, hcPl, hcLl, hcRl, hcAl, hcVl]
    set candIdx := promGate score
      (hysteresisMask score params.toBeatParamsV1.scoreThreshold
        (params.toBeatParamsV1.scoreThreshold * params.toBeatParamsV1.hysteresisLowFac))
      ((max 1 (roundHalfEven (params.promWindowS * fps))).toNat)
      params.minProminence params.minArea with hcanddef
    set events0 := (if candIdx ≠ [] then
        nmsBasic ((List.range score.length).map
          (fun i => if i ∈ candIdx then score.getD i 0 else 0)) fps
          (adaptiveNmsSep sq score fps params.toBeatParamsV1.adaptiveNms
            params.toBeatParamsV1.nmsSeparationS)
      else []) with hev0def
    have hb0 : (∀ e ∈ events0, e < positions.length) ∧ events0.Pairwise (· < ·) := by
      rw [hev0def]
      split
      · obtain ⟨hm, _, hp⟩ := nmsBasic_picked_props _ fps _
        refine ⟨fun e he => ?_, hp⟩
        have := (hm e he).1
        simpa [hscorelen] using this
      · exact ⟨by simp, List.Pairwise.nil⟩
    obtain ⟨hp, hb⟩ := v2EventsStage_props rfl hscorelen hb0.1 hb0.2 hev
    exact ⟨hp, hb⟩

/-- The elementary rotation matrices `RxRyRz[:, :, 0..2]` of
`transformation_matrix`, with precomputed cosines `c` and sines `s`. The
source computes `c = cos(deg2rad(rxyz))`, `s = sin(deg2rad(rxyz))`;
degree-to-radian conversion and the trigonometric functions are folded into
the abstract `c`, `s` arguments since they are not rational-valued. -/
def rotElem (c s : Fin 3 → ℚ) : Fin 3 → Matrix (Fin 3) (Fin 3) ℚ :=
  ![!![1, 0, 0; 0, c 0, -(s 0); 0, s 0, c 0],
    !![c 1, 0, s 1; 0, 1, 0; -(s 1), 0, c 1],
    !![c 2, -(s 2), 0; s 2, c 2, 0; 0, 0, 1]]

/-- `rotM = (RxRyRz[order[0]] @ RxRyRz[order[1]]) @ RxRyRz[order[2]]`: the
elementary rotations composed exactly in the channel-declared order. -/
def rotMOf (c s : Fin 3 → ℚ) (order : Fin 3 → Fin 3) : Matrix (Fin 3) (Fin 3) ℚ :=
  rotElem c s (order 0) * rotElem c s (order 1) * rotElem c s (order 2)

/-- `transformation_matrix`: the rotation block, the displacement column, and
the homogeneous bottom row `[0, 0, 0, 1]` assembled by `vstack`/`hstack`. -/
def transformationMatrixQ (displ : Fin 3 → ℚ) (c s : Fin 3 → ℚ)
    (order : Fin 3 → Fin 3) : Fin 4 → Fin 4 → ℚ :=
  fun i j =>
    if hi : (i : ℕ) < 3 then
      if hj : (j : ℕ) < 3 then rotMOf c s order ⟨i, hi⟩ ⟨j, hj⟩
      else displ ⟨i, hi⟩
    else if (j : ℕ) < 3 then 0 else 1

/-- Static data of one parsed BVH joint: the arena form of the `Joint`
dataclass, with the parent held by index (`none` for the root). `dOrder` is
the dataclass field `d_order`, which the hierarchy parser never overrides
from its `[0, 1, 2]` default. -/
structure BvhJoint where
  offset : Fin 3 → ℚ
  nChannels : ℕ
  rotOrder : Fin 3 → Fin 3
  dOrder : Fin 3 → Fin 3
  isRoot : Bool
  isEndSite : Bool
  parent : Option ℕ

instance : Inhabited BvhJoint := ⟨⟨fun _ => 0, 0, id, id, false, true, none⟩⟩

/-- Per-joint motion buffers `d_xyz`, `r_xyz`, `trans`, indexed by frame. -/
structure JointMotion where
  dXyz : ℕ → Fin 3 → ℚ
  rXyz : ℕ → Fin 3 → ℚ
  trans : ℕ → Fin 4 → Fin 4 → ℚ

instance : Inhabited JointMotion := ⟨⟨fun _ _ => 0, fun _ _ => 0, fun _ _ _ => 0⟩⟩

/-- Inverse of a channel-order permutation: the fancy assignment
`r_xyz[joint.order, :] = raw[...]` stores raw rotation column `k` at row
`order[k]`, so row `i` reads raw rotation column `invPerm order i`. -/
def invPerm (o : Fin 3 → Fin 3) (i : Fin 3) : Fin 3 :=
  if o 0 = i then 0 else if o 1 = i then 1 else 2

/-- The per-joint body of `_apply_initial_motion_data_to_skeleton`, given the
running channel offset `cc`; `raw f c` is `raw_motion_data[f, c]`. The NaN
fills of the source (overwritten by the kinematics pass, or never read) are
modeled as zeros; a channel count other than 0, 3, 6 raises in the source and
is likewise never read. -/
def initialMotionFor (cosQ sinQ : ℚ → ℚ) (raw : ℕ → ℕ → ℚ) (cc : ℕ)
    (j : BvhJoint) : JointMotion :=
  if j.nChannels = 6 then
    let dXyz : ℕ → Fin 3 → ℚ := fun f i => j.offset i + raw f (cc + ((j.dOrder i : Fin 3) : ℕ))
    let rXyz : ℕ → Fin 3 → ℚ := fun f i => raw f (cc + 3 + ((invPerm j.rotOrder i : Fin 3) : ℕ))
    { dXyz := dXyz, rXyz := rXyz,
      trans := fun f => transformationMatrixQ (dXyz f)
        (fun i => cosQ (rXyz f i)) (fun i => sinQ (rXyz f i)) j.rotOrder }
  else if j.nChannels = 3 then
    { dXyz := fun _ _ => 0,
      rXyz := fun f i => raw f (cc + ((invPerm j.rotOrder i : Fin 3) : ℕ)),
      trans := fun _ _ _ => 0 }
  else
    { dXyz := fun _ _ => 0, rXyz := fun _ _ => 0, trans := fun _ _ _ => 0 }

/-- The running `channel_count` value before each joint. -/
def channelOffsets : List BvhJoint → ℕ → List ℕ
  | [], _ => []
  | j :: rest, acc => acc :: channelOffsets rest (acc + j.nChannels)

/-- `_apply_initial_motion_data_to_skeleton`. -/
def applyInitialMotion (cosQ sinQ : ℚ → ℚ) (raw : ℕ → ℕ → ℚ)
    (joints : List BvhJoint) : List JointMotion :=
  (joints.zip (channelOffsets joints 0)).map
    (fun p => initialMotionFor cosQ sinQ raw p.2 p.1)

/-- 4x4 homogeneous matrix product, `parent.trans[:, :, fi] @ transM`. -/
def mat4mul (A B : Fin 4 → Fin 4 → ℚ) : Fin 4 → Fin 4 → ℚ :=
  fun i j => ∑ k : Fin 4, A i k * B k j

/-- The end-site local transform
`np.r_[np.c_[np.eye(3), joint.offset], [[0, 0, 0, 1]]]`. -/
def affineOffset (o : Fin 3 → ℚ) : Fin 4 → Fin 4 → ℚ :=
  fun i j =>
    if hi : (i : ℕ) < 3 then
      if (j : ℕ) < 3 then (if (i : ℕ) = (j : ℕ) then 1 else 0) else o ⟨i, hi⟩
    else if (j : ℕ) < 3 then 0 else 1

/-- One iteration of the first loop of `_apply_kinematics_to_skeleton`: root
and end-site joints are skipped; every other joint composes its parent's
transform (already updated in place, parents precede children) with its local
transform and reads off the translation column as its absolute position. -/
def kinStep (cosQ sinQ : ℚ → ℚ) (joints : List BvhJoint)
    (ms : List JointMotion) (idx : ℕ) : List JointMotion :=
  let j := joints.getD idx default
  if j.isEndSite || j.isRoot then ms
  else
    let pm := ms.getD (j.parent.getD 0) default
    let m := ms.getD idx default
    let newTrans : ℕ → Fin 4 → Fin 4 → ℚ := fun f =>
      mat4mul (pm.trans f)
        (transformationMatrixQ j.offset (fun i => cosQ (m.rXyz f i))
          (fun i => sinQ (m.rXyz f i)) j.rotOrder)
    ms.set idx { dXyz := fun f i => newTrans f i.castSucc 3,
                 rXyz := m.rXyz, trans := newTrans }

/-- One iteration of the end-site loop of `_apply_kinematics_to_skeleton`. -/
def endStep (joints : List BvhJoint) (ms : List JointMotion) (idx : ℕ) :
    List JointMotion :=
  let j := joints.getD idx default
  if j.isEndSite then
    let pm := ms.getD (j.parent.getD 0) default
    let m := ms.getD idx default
    let newD : ℕ → Fin 3 → ℚ := fun f i =>
      mat4mul (pm.trans f) (affineOffset j.offset) i.castSucc 3
    ms.set idx { m with dXyz := newD }
  else ms

/-- `_apply_kinematics_to_skeleton`: the non-end-site pass in skeleton order,
then the end-site pass, both updating the arena in place. -/
def applyKinematics (cosQ sinQ : ℚ → ℚ) (joints : List BvhJoint)
    (ms : List JointMotion) : List JointMotion :=
  (List.range joints.length).foldl (endStep joints)
    ((List.range joints.length).foldl (kinStep cosQ sinQ joints) ms)

/-- `_parse_motion` after the headers: fill the initial per-joint motion
buffers, then resolve forward kinematics. -/
def resolveSkeletonMotion (cosQ sinQ : ℚ → ℚ) (raw : ℕ → ℕ → ℚ)
    (joints : List BvhJoint) : List JointMotion :=
  applyKinematics cosQ sinQ joints (applyInitialMotion cosQ sinQ raw joints)

theorem getD_set_ne {α : Type} [Inhabited α] (l : List α) (i j : ℕ) (a : α)
    (h : i ≠ j) : (l.set i a).getD j default = l.getD j default := by
  by_cases hj : j < l.length
  · rw [List.getD_eq_getElem _ _ (by rw [List.length_set]; exact hj),
      List.getD_eq_getElem _ _ hj]
    exact List.getElem_set_ne h _
  · rw [List.getD_eq_default _ _ (by rw [List.length_set]; omega),
      List.getD_eq_default _ _ (by omega)]

theorem kinStep_getD_zero (cosQ sinQ : ℚ → ℚ) (joints : List BvhJoint)
    (hroot : (joints.getD 0 default).isRoot = true) (ms : List JointMotion)
    (idx : ℕ) : (kinStep cosQ sinQ joints ms idx).getD 0 default = ms.getD 0 default := by
  unfold kinStep
  dsimp only
  split
  · rfl
  · rename_i hskip
    rcases eq_or_ne idx 0 with h0 | h0
    · subst h0
      rw [hroot] at hskip
      simp at hskip
    · exact getD_set_ne _ _ _ _ h0

theorem endStep_getD_zero (joints : List BvhJoint)
    (hend : (joints.getD 0 default).isEndSite = false) (ms : List JointMotion)
    (idx : ℕ) : (endStep joints ms idx).getD 0 default = ms.getD 0 default := by
  unfold endStep
  dsimp only
  split
  · rename_i hsite
    rcases eq_or_ne idx 0 with h0 | h0
    · subst h0
      rw [hend] at hsite
      simp at hsite
    · exact getD_set_ne _ _ _ _ h0
  · rfl

theorem foldl_getD_zero {step : List JointMotion → ℕ → List JointMotion}
    (hstep : ∀ ms idx, (step ms idx).getD 0 default = ms.getD 0 default) :
    ∀ (idxs : List ℕ) (ms : List JointMotion),
      (idxs.foldl step ms).getD 0 default = ms.getD 0 default := by
  intro idxs
  induction idxs with
  | nil => intro ms; rfl
  | cons i rest ih => intro ms; rw [List.foldl_cons, ih, hstep]

theorem resolveSkeletonMotion_root (cosQ sinQ : ℚ → ℚ) (raw : ℕ → ℕ → ℚ)
    (j0 : BvhJoint) (rest : List BvhJoint)
    (hroot : j0.isRoot = true) (hend : j0.isEndSite = false)
    (h6 : j0.nChannels = 6) (f : ℕ) (i : Fin 3) :
    ((resolveSkeletonMotion cosQ sinQ raw (j0 :: rest)).getD 0 default).dXyz f i
      = j0.offset i + raw f ((j0.dOrder i : Fin 3) : ℕ) := by
  have hj0 : ((j0 :: rest).getD 0 default) = j0 := rfl
  unfold resolveSkeletonMotion applyKinematics
  rw [foldl_getD_zero (endStep_getD_zero _ (hj0 ▸ hend)),
    foldl_getD_zero (kinStep_getD_zero cosQ sinQ _ (hj0 ▸ hroot))]
  have hhead : (applyInitialMotion cosQ sinQ raw (j0 :: rest)).getD 0 default
      = initialMotionFor cosQ sinQ raw 0 j0 := rfl
  rw [hhead]
  unfold initialMotionFor
  rw [if_pos h6]
  simp

theorem transformationMatrixQ_translation (displ c s : Fin 3 → ℚ)
    (order : Fin 3 → Fin 3) (i : Fin 3) :
    transformationMatrixQ displ c s order i.castSucc 3 = displ i := by
  unfold transformationMatrixQ
  have hi : ((i.castSucc : Fin 4) : ℕ) < 3 := by
    simpa using i.isLt
  rw [dif_pos hi, dif_neg (by decide : ¬(((3 : Fin 4) : ℕ) < 3))]
  congr 1

/-- Walk of `np.interp` over the knot pairs: linear interpolation on the first
segment whose right knot is at or past `t`, clamping to the last value. -/
def interpGo (t : ℚ) : List (ℚ × ℚ) → ℚ
  | (x1, y1) :: (x2, y2) :: rest =>
    if t ≤ x2 then y1 + (y2 - y1) * (t - x1) / (x2 - x1)
    else interpGo t ((x2, y2) :: rest)
  | [(_, y1)] => y1
  | [] => 0

/-- `np.interp(t, xp, fp)` for strictly increasing `xp` (which is how all
callers here use it), clamped at both ends. -/
def interpQ (t : ℚ) (xp fp : List ℚ) : ℚ :=
  if t ≤ xp.headD 0 then fp.headD 0
  else interpGo t (xp.zip fp)

/-- `np.arange(t0, t1, dt)` for `dt > 0`: `⌈(t1 - t0)/dt⌉` samples. -/
def arangeQ (t0 t1 dt : ℚ) : List ℚ :=
  (List.range (⌈(t1 - t0) / dt⌉.toNat)).map (fun k : ℕ => t0 + (k : ℚ) * dt)

/-- `np.linspace(a, b, n)` with the endpoint included; `n = 1` gives `[a]`. -/
def linspaceQ (a b : ℚ) (n : ℕ) : List ℚ :=
  (List.range n).map (fun k : ℕ =>
    if n = 1 then a else a + (k : ℚ) * ((b - a) / ((n : ℚ) - 1)))

/-- `norm_env` inside `estimate_offset_sec_from_env`: center, then divide by
the standard deviation unless it is below `1e-9`, in which case all zeros. -/
def normEnv (sq : ℚ → ℚ) (x : List ℚ) : List ℚ :=
  let c := x.map (fun v => v - meanQ x)
  let s := stdQ sq c
  if s < 1 / 1000000000 then c.map (fun _ => 0)
  else c.map (fun v => v / s)

/-- `np.allclose(x, 0.0)` at the default tolerances (`rtol` is moot against an
all-zero reference): every entry within `atol = 1e-8`. -/
def allcloseZero (x : List ℚ) : Bool :=
  x.all (fun v => decide (|v| ≤ 1 / 100000000))

/-- The per-offset candidate score of `estimate_offset_sec_from_env`: `none`
models the two `continue` branches (overlap too small, degenerate
denominator), otherwise the normalized correlation over the common grid. -/
def candScore (sq : ℚ → ℚ) (aN mN audioTimes motionTimes : List ℚ)
    (dtGrid offset : ℚ) : Option ℚ :=
  let t0 := max (audioTimes.headD 0 + offset) (motionTimes.headD 0)
  let t1 := min (audioTimes.getLastD 0 + offset) (motionTimes.getLastD 0)
  if t1 ≤ t0 + 2 * dtGrid then none
  else
    let t := arangeQ t0 t1 dtGrid
    let avals0 := t.map (fun tt => interpQ (tt - offset) audioTimes aN)
    let mvals0 := t.map (fun tt => interpQ tt motionTimes mN)
    let avals := avals0.map (fun v => v - meanQ avals0)
    let mvals := mvals0.map (fun v => v - meanQ mvals0)
    let denom := sq (avals.map (fun v => v ^ 2)).sum * sq (mvals.map (fun v => v ^ 2)).sum
      + 1 / 1000000000
    if denom ≤ 1 / 1000000000 then none
    else some ((List.zipWith (fun a b => a * b) avals mvals).sum / denom)

/-- The candidate-offset grid:
`np.linspace(-max_offset_sec, max_offset_sec, int(2*max_offset_sec/dt_grid) + 1)`. -/
def offsetGrid (maxOffsetSec dtGrid : ℚ) : List ℚ :=
  linspaceQ (-maxOffsetSec) maxOffsetSec (intTrunc (2 * maxOffsetSec / dtGrid) + 1).toNat

/-- The best-score tracking loop of `estimate_offset_sec_from_env`; `⊥` models
the initial `best_score = -np.inf`, the second component `best_offset`. -/
def bestOffsetFold (cand : ℚ → Option ℚ) (offsets : List ℚ) : WithBot ℚ × ℚ :=
  offsets.foldl (fun best o =>
    match cand o with
    | none => best
    | some sc => if best.1 < (sc : WithBot ℚ) then ((sc : WithBot ℚ), o) else best)
    (⊥, 0)

/-- `estimate_offset_sec_from_env` from `scripts/build_ml_dataset.py`. Note:
it returns only the offset; the winning correlation score is tracked in the
loop but discarded on return. -/
def estimateOffsetSecFromEnv (sq : ℚ → ℚ)
    (audioEnv audioTimes motionEnv motionTimes : List ℚ)
    (maxOffsetSec dtGrid : ℚ) : ℚ :=
  if audioEnv.length < 4 ∨ motionEnv.length < 4 then 0
  else
    let aN := normEnv sq audioEnv
    let mN := normEnv sq motionEnv
    if allcloseZero aN = true ∨ allcloseZero mN = true then 0
    else (bestOffsetFold (candScore sq aN mN audioTimes motionTimes dtGrid)
      (offsetGrid maxOffsetSec dtGrid)).2

/-- `np.correlate(a, v, "full")` for equal-length real inputs: entry `j`
corresponds to lag `j - (n - 1)` and sums `a[i + lag] * v[i]`. -/
def correlateFull (a v : List ℚ) : List ℚ :=
  let n := a.length
  (List.range (2 * n - 1)).map (fun j =>
    ((List.range n).map (fun i : ℕ =>
      if 0 ≤ (i : ℤ) + ((j : ℤ) - ((n : ℤ) - 1)) ∧ (i : ℤ) + ((j : ℤ) - ((n : ℤ) - 1)) < (n : ℤ)
      then a.getD ((i : ℤ) + ((j : ℤ) - ((n : ℤ) - 1))).toNat 0 * v.getD i 0
      else 0)).sum)

/-- The `(x - mean)/(std + 1e-9)` normalization of
`estimate_offset_audio_to_motion`. -/
def normalizeUV (sq : ℚ → ℚ) (x : List ℚ) : List ℚ :=
  x.map (fun v => (v - meanQ x) / (stdQ sq x + 1 / 1000000000))

/-- `estimate_offset_audio_to_motion` from `scripts/auto_beats_from_audio.py`:
the cross-correlation variant. Unlike `estimate_offset_sec_from_env`, it has
no zero-variance guard before the argmax over the lag-restricted correlation. -/
def estimateOffsetAudioToMotion (sq : ℚ → ℚ)
    (audioEnv audioTimes motionEnv motionTimes : List ℚ)
    (maxOffsetSec dtGrid : ℚ) : ℚ :=
  if audioEnv.length < 5 ∨ motionEnv.length < 5 then 0
  else
    let tMin := max (audioTimes.headD 0) (motionTimes.headD 0)
    let tMax := min (audioTimes.getLastD 0) (motionTimes.getLastD 0)
    if tMax ≤ tMin + 5 * dtGrid then 0
    else
      let grid := arangeQ tMin tMax dtGrid
      if grid.length < 10 then 0
      else
        let aN := normalizeUV sq (grid.map (fun t => interpQ t audioTimes audioEnv))
        let mN := normalizeUV sq (grid.map (fun t => interpQ t motionTimes motionEnv))
        let corr := correlateFull aN mN
        let lags := (List.range (2 * grid.length - 1)).map
          (fun j : ℕ => (j : ℤ) - ((grid.length : ℤ) - 1))
        let maxLagSteps := intTrunc (maxOffsetSec / dtGrid)
        let pairs := (corr.zip lags).filter (fun p => decide (|p.2| ≤ maxLagSteps))
        if pairs = [] then 0
        else
          -(((pairs.map (fun p => p.2)).getD
              (argmaxIdx (pairs.map (fun p => p.1))) 0 : ℤ) : ℚ) * dtGrid

theorem bestOffsetFold_go (cand : ℚ → Option ℚ) (offsets : List ℚ) :
    ∀ acc : WithBot ℚ × ℚ,
      (offsets.foldl (fun best o =>
          match cand o with
          | none => best
          | some sc => if best.1 < (sc : WithBot ℚ) then ((sc : WithBot ℚ), o) else best)
        acc = acc ∨
        ∃ sc : ℚ, (offsets.foldl (fun best o =>
          match cand o with
          | none => best
          | some sc => if best.1 < (sc : WithBot ℚ) then ((sc : WithBot ℚ), o) else best)
          acc).1 = (sc : WithBot ℚ) ∧
          (offsets.foldl (fun best o =>
            match cand o with
            | none => best
            | some sc => if best.1 < (sc : WithBot ℚ) then ((sc : WithBot ℚ), o) else best)
            acc).2 ∈ offsets ∧
          cand ((offsets.foldl (fun best o =>
            match cand o with
            | none => best
            | some sc => if best.1 < (sc : WithBot ℚ) then ((sc : WithBot ℚ), o) else best)
            acc).2) = some sc) ∧
      (∀ o ∈ offsets, ∀ s2 : ℚ, cand o = some s2 →
        (s2 : WithBot ℚ) ≤ (offsets.foldl (fun best o =>
          match cand o with
          | none => best
          | some sc => if best.1 < (sc : WithBot ℚ) then ((sc : WithBot ℚ), o) else best)
          acc).1) ∧
      acc.1 ≤ (offsets.foldl (fun best o =>
        match cand o with
        | none => best
        | some sc => if best.1 < (sc : WithBot ℚ) then ((sc : WithBot ℚ), o) else best)
        acc).1 := by
  induction offsets with
  | nil =>
    intro acc
    exact ⟨Or.inl rfl, by simp, le_refl _⟩
  | cons o rest ih =>
    intro acc
    rw [List.foldl_cons]
    rcases hco : cand o with _ | sc
    · obtain ⟨ih1, ih2, ih3⟩ := ih acc
      simp only [hco]
      refine ⟨?_, ?_, ih3⟩
      · rcases ih1 with ih1 | ⟨sc2, hsc2⟩
        · exact Or.inl ih1
        · exact Or.inr ⟨sc2, hsc2.1, List.mem_cons_of_mem o hsc2.2.1, hsc2.2.2⟩
      · intro o2 ho2 s2 hs2
        rcases List.mem_cons.mp ho2 with ho2 | ho2
        · subst ho2; rw [hco] at hs2; exact absurd hs2 (by simp)
        · exact ih2 o2 ho2 s2 hs2
    · simp only [hco]
      by_cases hlt : acc.1 < (sc : WithBot ℚ)
      · rw [if_pos hlt]
        obtain ⟨ih1, ih2, ih3⟩ := ih ((sc : WithBot ℚ), o)
        refine ⟨?_, ?_, le_trans (le_of_lt hlt) (by simpa using ih3)⟩
        · rcases ih1 with ih1 | ⟨sc2, hsc2⟩
          · rw [ih1]
            exact Or.inr ⟨sc, rfl, List.mem_cons_self o rest, hco⟩
          · exact Or.inr ⟨sc2, hsc2.1, List.mem_cons_of_mem o hsc2.2.1, hsc2.2.2⟩
        · intro o2 ho2 s2 hs2
          rcases List.mem_cons.mp ho2 with ho2 | ho2
          · subst ho2
            rw [hco] at hs2
            have hss : sc = s2 := Option.some.inj hs2
            subst hss
            simpa using ih3
          · exact ih2 o2 ho2 s2 hs2
      · rw [if_neg hlt]
        obtain ⟨ih1, ih2, ih3⟩ := ih acc
        refine ⟨?_, ?_, ih3⟩
        · rcases ih1 with ih1 | ⟨sc2, hsc2⟩
          · exact Or.inl ih1
          · exact Or.inr ⟨sc2, hsc2.1, List.mem_cons_of_mem o hsc2.2.1, hsc2.2.2⟩
        · intro o2 ho2 s2 hs2
          rcases List.mem_cons.mp ho2 with ho2 | ho2
          · subst ho2
            rw [hco] at hs2
            have hss : sc = s2 := Option.some.inj hs2
            subst hss
            exact le_trans (not_lt.mp hlt) ih3
          · exact ih2 o2 ho2 s2 hs2

theorem bestOffsetFold_spec (cand : ℚ → Option ℚ) (offsets : List ℚ) :
    (bestOffsetFold cand offsets = (⊥, 0) ∧ ∀ o ∈ offsets, cand o = none) ∨
      ∃ sc : ℚ, (bestOffsetFold cand offsets).1 = (sc : WithBot ℚ) ∧
        (bestOffsetFold cand offsets).2 ∈ offsets ∧
        cand ((bestOffsetFold cand offsets).2) = some sc ∧
        ∀ o ∈ offsets, ∀ s2 : ℚ, cand o = some s2 → s2 ≤ sc := by
  unfold bestOffsetFold
  obtain ⟨h1, h2, _⟩ := bestOffsetFold_go cand offsets (⊥, 0)
  rcases h1 with h1 | ⟨sc, hsc1, hsc2, hsc3⟩
  · left
    refine ⟨h1, fun o ho => ?_⟩
    rcases hco : cand o with _ | s2
    · rfl
    · have h3 := h2 o ho s2 hco
      rw [h1] at h3
      exact absurd h3 (by simp)
  · right
    refine ⟨sc, hsc1, hsc2, hsc3, fun o ho s2 hs2 => ?_⟩
    have h3 := h2 o ho s2 hs2
    rw [hsc1] at h3
    exact_mod_cast h3

theorem offsetGrid_mem_bounds {M dtg : ℚ} (hM : 0 ≤ M) :
    ∀ o ∈ offsetGrid M dtg, -M ≤ o ∧ o ≤ M := by
  intro o ho
  unfold offsetGrid linspaceQ at ho
  obtain ⟨k, hk, hko⟩ := List.mem_map.mp ho
  rw [List.mem_range] at hk
  set n := (intTrunc (2 * M / dtg) + 1).toNat with hn
  subst hko
  by_cases h1 : n = 1
  · rw [if_pos h1]
    constructor
    · linarith
    · linarith
  · rw [if_neg h1]
    have hn2 : 2 ≤ n := by omega
    have hd : (0 : ℚ) < (n : ℚ) - 1 := by
      have : (2 : ℚ) ≤ (n : ℚ) := by exact_mod_cast hn2
      linarith
    have hstep : 0 ≤ (M - -M) / ((n : ℚ) - 1) := by
      apply div_nonneg (by linarith) (le_of_lt hd)
    have hkle : (k : ℚ) ≤ (n : ℚ) - 1 := by
      have : (k : ℚ) + 1 ≤ (n : ℚ) := by exact_mod_cast hk
      linarith
    constructor
    · have : 0 ≤ (k : ℚ) * ((M - -M) / ((n : ℚ) - 1)) :=
        mul_nonneg (by positivity) hstep
      linarith
    · have hmul : (k : ℚ) * ((M - -M) / ((n : ℚ) - 1)) ≤
          ((n : ℚ) - 1) * ((M - -M) / ((n : ℚ) - 1)) :=
        mul_le_mul_of_nonneg_right hkle hstep
      have heq : ((n : ℚ) - 1) * ((M - -M) / ((n : ℚ) - 1)) = M - -M := by
        field_simp
      rw [heq] at hmul
      linarith

/-! ## Claim theorems

Concrete evaluations below reduce rational arithmetic in the kernel; the
arithmetic on `ℚ` is exact, so every number computed here is the exact value
the floating-point source computes whenever that computation stays within
dyadic rationals (all chosen inputs do). -/

attribute [local semireducible] Rat.add Rat.mul Rat.inv Rat.sub Nat.gcd

/-- C1: for a skeleton whose root joint carries six channels, the root's
resolved absolute position at every frame `f` equals its static offset plus
the three translation channel values of frame `f`, component-wise; no rotation
is applied to the root translation itself. -/
theorem claim_C1_root_position (cosQ sinQ : ℚ → ℚ) (raw : ℕ → ℕ → ℚ)
    (j0 : BvhJoint) (rest : List BvhJoint)
    (hroot : j0.isRoot = true) (hend : j0.isEndSite = false)
    (h6 : j0.nChannels = 6) (f : ℕ) (i : Fin 3) :
    ((resolveSkeletonMotion cosQ sinQ raw (j0 :: rest)).getD 0 default).dXyz f i
      = j0.offset i + raw f ((j0.dOrder i : Fin 3) : ℕ) :=
  resolveSkeletonMotion_root cosQ sinQ raw j0 rest hroot hend h6 f i

theorem claim_C1_root_position_witness :
    ((resolveSkeletonMotion (fun q => q) (fun q => q) (fun _ c => (c : ℚ))
        [(⟨fun _ => 5, 6, id, id, true, false, none⟩ : BvhJoint)]).getD 0
        default).dXyz 0 1
      = (⟨fun _ => 5, 6, id, id, true, false, none⟩ : BvhJoint).offset 1
        + (fun _ c => (c : ℚ)) 0
            (((⟨fun _ => 5, 6, id, id, true, false, none⟩ : BvhJoint).dOrder 1 :
              Fin 3) : ℕ) :=
  claim_C1_root_position (fun q => q) (fun q => q) (fun _ c => (c : ℚ))
    ⟨fun _ => 5, 6, id, id, true, false, none⟩ [] rfl rfl rfl 0 1

/-- C2: whenever `extract_beats_v1` / `extract_beats_v2` return a result on a
`T ≥ 1`, `fps > 0` input, the `events_idx` list is strictly increasing (hence
sorted and duplicate-free) and every entry is an integer in `[0, T)`. -/
theorem claim_C2_events_sorted_bounded (sq : ℚ → ℚ) (positions : List (List Vec3))
    (fps : ℚ) (jointIndices : List ℤ) (p1 : BeatParamsV1) (p2 : BeatParamsV2)
    (pelvisIdx lf rf : Option ℤ) (r1 : ExtractResultV1) (r2 : ExtractResultV2)
    (_hT : 1 ≤ positions.length) (_hfps : 0 < fps)
    (h1 : extractBeatsV1 sq positions fps jointIndices p1 pelvisIdx lf rf = some r1)
    (h2 : extractBeatsV2 sq positions fps jointIndices p2 pelvisIdx lf rf = some r2) :
    (r1.eventsIdx.Pairwise (· < ·) ∧
        ∀ e ∈ r1.eventsIdx, 0 ≤ e ∧ e < (positions.length : ℤ)) ∧
      (r2.eventsIdx.Pairwise (· < ·) ∧
        ∀ e ∈ r2.eventsIdx, 0 ≤ e ∧ e < (positions.length : ℤ)) :=
  ⟨extractBeatsV1_events sq positions fps jointIndices p1 pelvisIdx lf rf r1 h1,
    extractBeatsV2_events sq positions fps jointIndices p2 pelvisIdx lf rf r2 h2⟩

set_option maxRecDepth 100000 in
theorem claim_C2_events_sorted_bounded_witness :
    ((⟨[0, 0], [false, false], [], [0, 0], [0, 0], [0, 0]⟩ :
          ExtractResultV1).eventsIdx.Pairwise (· < ·) ∧
        ∀ e ∈ (⟨[0, 0], [false, false], [], [0, 0], [0, 0], [0, 0]⟩ :
          ExtractResultV1).eventsIdx,
          0 ≤ e ∧ e < (([[(⟨0, 0, 0⟩ : Vec3)], [⟨1, 0, 0⟩]] :
            List (List Vec3)).length : ℤ)) ∧
      ((⟨[0, 0], [false, false], [], [0, 0], [0, 0], [0, 0], [0, 0], [0, 0]⟩ :
          ExtractResultV2).eventsIdx.Pairwise (· < ·) ∧
        ∀ e ∈ (⟨[0, 0], [false, false], [], [0, 0], [0, 0], [0, 0], [0, 0], [0, 0]⟩ :
          ExtractResultV2).eventsIdx,
          0 ≤ e ∧ e < (([[(⟨0, 0, 0⟩ : Vec3)], [⟨1, 0, 0⟩]] :
            List (List Vec3)).length : ℤ)) :=
  claim_C2_events_sorted_bounded (fun q => q) [[⟨0, 0, 0⟩], [⟨1, 0, 0⟩]] 30 [0]
    defaultBeatParamsV1 defaultBeatParamsV2 none none none
    ⟨[0, 0], [false, false], [], [0, 0], [0, 0], [0, 0]⟩
    ⟨[0, 0], [false, false], [], [0, 0], [0, 0], [0, 0], [0, 0], [0, 0]⟩
    (by decide) (by decide) (by decide) (by decide)

/-- C3: on degenerate input (`T = 0` or `fps ≤ 0`) both extractors return a
result (no exception) all of whose signal/array fields are empty. -/
theorem claim_C3_degenerate_empty (sq : ℚ → ℚ) (positions : List (List Vec3))
    (fps : ℚ) (jointIndices : List ℤ) (p1 : BeatParamsV1) (p2 : BeatParamsV2)
    (pelvisIdx lf rf : Option ℤ)
    (h : positions.length = 0 ∨ fps ≤ 0) :
    extractBeatsV1 sq positions fps jointIndices p1 pelvisIdx lf rf
        = some ⟨[], [], [], [], [], []⟩ ∧
      extractBeatsV2 sq positions fps jointIndices p2 pelvisIdx lf rf
        = some ⟨[], [], [], [], [], [], [], []⟩ := by
  constructor
  · unfold extractBeatsV1
    dsimp only
    rw [if_pos h]
  · unfold extractBeatsV2
    dsimp only
    rw [if_pos h]

theorem claim_C3_degenerate_empty_witness :
    extractBeatsV1 (fun q => q) [] 30 [] defaultBeatParamsV1 none none none
        = some ⟨[], [], [], [], [], []⟩ ∧
      extractBeatsV2 (fun q => q) [] 30 [] defaultBeatParamsV2 none none none
        = some ⟨[], [], [], [], [], [], [], []⟩ :=
  claim_C3_degenerate_empty (fun q => q) [] 30 [] defaultBeatParamsV1
    defaultBeatParamsV2 none none none (Or.inl rfl)

/-- C4: any two indices kept by `_nms_basic` are strictly more than the
suppression window `max(1, round(min_sep_s * fps))` frames apart. -/
theorem claim_C4_nms_separation (score : List ℚ) (fps minSep : ℚ)
    (_hfps : 0 < fps) :
    (nmsBasic score fps minSep).Pairwise
      (fun a b => winOf fps minSep < Nat.dist a b) :=
  (nmsBasic_picked_props score fps minSep).2.1

theorem claim_C4_nms_separation_witness :
    (0 : ℚ) < 1 ∧ (nmsBasic [0, 1, 0, 1, 0] 1 0).Pairwise
      (fun a b => winOf 1 0 < Nat.dist a b) :=
  ⟨by decide, claim_C4_nms_separation [0, 1, 0, 1, 0] 1 0 (by decide)⟩

/-- C5 is refuted at `T = 1`: `_grad`'s multi-axis branch has no `n == 1`
case, so on a one-frame stream with a valid joint selection and a valid foot
index, `_body_speed_trace` (hence the deceleration cue), `_cue_foot_contact`,
`_cue_global_accel` and `_cue_reversal` all raise an IndexError (`none` here)
instead of returning an all-zero length-`T` array; only `_cue_pelvis_drop`,
which differentiates 1-D signals, returns the promised zeros. -/
theorem claim_C5_t1_cue_crash :
    bodySpeedTrace (fun q => q) [[(⟨1, 2, 3⟩ : Vec3)]] (1 / 30) 1 = none ∧
      cueFootContact (fun q => q) [[(⟨1, 2, 3⟩ : Vec3)]] (some 0) (1 / 30) 1
        (1 / 5) (1 / 20) 1 = none ∧
      cueGlobalAccel (fun q => q) [[(⟨1, 2, 3⟩ : Vec3)]] (1 / 30) 1 = none ∧
      cueReversal (fun q => q) [[(⟨1, 2, 3⟩ : Vec3)]] (1 / 30) 1 = none ∧
      cuePelvisDrop [[(⟨1, 2, 3⟩ : Vec3)]] (some 0) (1 / 30) 1 = some [0] := by
  decide

/-- C6 is refuted for even smoothing windows: `_ma1d` pads by `k2 - 1 = k/2`
on each side and convolves with a length-`k2 = k+1` kernel in mode `valid`,
so an even `k` yields length `T + 1` rather than `T` (here `4 ≠ 3`),
`_ma3`'s column-stack then raises a ValueError (`none`), and a cue built on an
even window (pelvis drop with `smooth_win = 2`) raises instead of returning a
length-`T` array; the odd case does give length `T`. -/
theorem claim_C6_even_window_length_bug :
    (ma1d [0, 0, 0] 2).length = 4 ∧
      ma3 [(⟨0, 0, 0⟩ : Vec3), ⟨0, 0, 0⟩, ⟨0, 0, 0⟩] 2 = none ∧
      cuePelvisDrop [[(⟨0, 0, 0⟩ : Vec3)], [⟨0, 0, 0⟩], [⟨0, 0, 0⟩]] (some 0)
        (1 / 30) 2 = none ∧
      (ma1d [0, 0, 0] 3).length = 3 := by
  decide

/-- C7: every entry of `_robust_norm x` lies in `[0, 1]`, and when the
95th/5th percentile spread is below `eps = 1e-9` the output is all-zero. -/
theorem claim_C7_robust_norm_range (x : List ℚ) :
    (∀ v ∈ robustNorm x, 0 ≤ v ∧ v ≤ 1) ∧
      (percentileQ x 95 - percentileQ x 5 < 1 / 1000000000 →
        ∀ v ∈ robustNorm x, v = 0) := by
  unfold robustNorm robustNormP
  dsimp only
  by_cases h0 : x.length = 0
  · rw [if_pos h0]
    have hx : x = [] := List.length_eq_zero.mp h0
    subst hx
    exact ⟨fun v hv => absurd hv (List.not_mem_nil v),
      fun _ v hv => absurd hv (List.not_mem_nil v)⟩
  · rw [if_neg h0]
    by_cases hspread : percentileQ x 95 - percentileQ x 5 < 1 / 1000000000
    · rw [if_pos hspread]
      refine ⟨fun v hv => ?_, fun _ v hv => ?_⟩
      · obtain ⟨a, _, rfl⟩ := List.mem_map.mp hv
        norm_num
      · obtain ⟨a, _, rfl⟩ := List.mem_map.mp hv
        rfl
    · rw [if_neg hspread]
      refine ⟨fun v hv => ?_, fun hc => absurd hc hspread⟩
      obtain ⟨a, _, rfl⟩ := List.mem_map.mp hv
      unfold clipQ
      exact ⟨le_min (le_max_right _ _) (by norm_num), min_le_right _ _⟩

theorem claim_C7_robust_norm_range_witness :
    percentileQ [1, 1, 1] 95 - percentileQ [1, 1, 1] 5 < 1 / 1000000000 ∧
      ∀ v ∈ robustNorm [1, 1, 1], v = 0 :=
  ⟨by decide, (claim_C7_robust_norm_range [1, 1, 1]).2 (by decide)⟩

/-- C8: on a strictly increasing event set with entries in `[0, T)`,
`refine_events_with_tempo` returns the input unchanged when the event count is
below `min_events` or the fitted least-squares slope is non-positive (the
source guard `b <= 0.5` subsumes non-positive slopes). -/
theorem claim_C8_refine_noop (events : List ℤ) (score : List ℚ) (fps : ℚ)
    (maxDrift minEvents : ℤ)
    (hsorted : events.Pairwise (· < ·))
    (hin : ∀ e ∈ events, 0 ≤ e ∧ e < (score.length : ℤ)) :
    ((events.length : ℤ) < minEvents →
        refineEventsWithTempo events score fps maxDrift minEvents = events) ∧
      ((polyfit1 ((List.range events.length).map (fun i : ℕ => (i : ℚ)))
          (events.map (fun e : ℤ => (e : ℚ)))).1 ≤ 0 →
        refineEventsWithTempo events score fps maxDrift minEvents = events) :=
  refineEvents_noop events score fps maxDrift minEvents hsorted hin

theorem claim_C8_refine_noop_witness :
    ((([0, 5] : List ℤ).length : ℤ) < 3 ∧
      refineEventsWithTempo [0, 5] [0, 0, 0, 0, 0, 0] 30 3 3 = [0, 5]) :=
  ⟨by decide, (claim_C8_refine_noop [0, 5] [0, 0, 0, 0, 0, 0] 30 3 3
    (by decide) (by decide)).1 (by decide)⟩

set_option maxRecDepth 100000 in
/-- C9 counterexample: `estimate_offset_audio_to_motion` has no zero-variance
guard, so on a constant (zero-variance, near-zero after normalization) audio
envelope it returns the boundary offset `max_offset_sec = 1/4` instead of
zero; all intermediate values on this input are dyadic, so the exact rational
run coincides with the floating-point run. Neither aligner returns the
correlation score alongside the offset (both return only a scalar). -/
theorem claim_C9_no_variance_guard_counterexample :
    estimateOffsetAudioToMotion (fun q => q) [2, 2, 2, 2, 2]
        [0, 1 / 4, 1 / 2, 3 / 4, 1] [0, 1, 0, 1, 0] [0, 1 / 4, 1 / 2, 3 / 4, 1]
        (1 / 4) (1 / 16) = 1 / 4 ∧
      stdQ (fun q => q) [2, 2, 2, 2, 2] = 0 ∧ ((1 / 4 : ℚ) ≠ 0) := by
  decide

/-- C9 amended, for `estimate_offset_sec_from_env` (which does carry the
guards): the routine returns `0` on short inputs, on a near-zero normalized
envelope, and when no candidate offset yields a valid overlap; any nonzero
return lies in `[-max_offset_sec, max_offset_sec]` and is an offset of the
search grid whose candidate correlation score is maximal among all candidates
— but the score itself is discarded, not returned. -/
theorem claim_C9_amended_offset_props (sq : ℚ → ℚ)
    (audioEnv audioTimes motionEnv motionTimes : List ℚ) (M dtg : ℚ)
    (hM : 0 ≤ M) :
    ((audioEnv.length < 4 ∨ motionEnv.length < 4) →
        estimateOffsetSecFromEnv sq audioEnv audioTimes motionEnv motionTimes
          M dtg = 0) ∧
      ((allcloseZero (normEnv sq audioEnv) = true ∨
          allcloseZero (normEnv sq motionEnv) = true) →
        estimateOffsetSecFromEnv sq audioEnv audioTimes motionEnv motionTimes
          M dtg = 0) ∧
      ((∀ o ∈ offsetGrid M dtg,
          candScore sq (normEnv sq audioEnv) (normEnv sq motionEnv)
            audioTimes motionTimes dtg o = none) →
        estimateOffsetSecFromEnv sq audioEnv audioTimes motionEnv motionTimes
          M dtg = 0) ∧
      (estimateOffsetSecFromEnv sq audioEnv audioTimes motionEnv motionTimes
          M dtg ≠ 0 →
        -M ≤ estimateOffsetSecFromEnv sq audioEnv audioTimes motionEnv
            motionTimes M dtg ∧
          estimateOffsetSecFromEnv sq audioEnv audioTimes motionEnv motionTimes
            M dtg ≤ M ∧
          ∃ sc : ℚ,
            candScore sq (normEnv sq audioEnv) (normEnv sq motionEnv) audioTimes
              motionTimes dtg (estimateOffsetSecFromEnv sq audioEnv audioTimes
                motionEnv motionTimes M dtg) = some sc ∧
            ∀ o ∈ offsetGrid M dtg, ∀ s2 : ℚ,
              candScore sq (normEnv sq audioEnv) (normEnv sq motionEnv)
                audioTimes motionTimes dtg o = some s2 → s2 ≤ sc) := by
  unfold estimateOffsetSecFromEnv
  dsimp only
  by_cases h1 : audioEnv.length < 4 ∨ motionEnv.length < 4
  · rw [if_pos h1]
    exact ⟨fun _ => rfl, fun _ => rfl, fun _ => rfl, fun hne => absurd rfl hne⟩
  · rw [if_neg h1]
    by_cases h2 : allcloseZero (normEnv sq audioEnv) = true ∨
        allcloseZero (normEnv sq motionEnv) = true
    · rw [if_pos h2]
      exact ⟨fun hc => absurd hc h1, fun _ => rfl, fun _ => rfl,
        fun hne => absurd rfl hne⟩
    · rw [if_neg h2]
      refine ⟨fun hc => absurd hc h1, fun hc => absurd hc h2,
        fun hall => ?_, fun hne => ?_⟩
      · rcases bestOffsetFold_spec (candScore sq (normEnv sq audioEnv)
            (normEnv sq motionEnv) audioTimes motionTimes dtg)
            (offsetGrid M dtg) with ⟨hfold, _⟩ | ⟨sc, _, hmem, hcand, _⟩
        · rw [hfold]
        · rw [hall _ hmem] at hcand
          exact Option.noConfusion hcand
      · rcases bestOffsetFold_spec (candScore sq (normEnv sq audioEnv)
            (normEnv sq motionEnv) audioTimes motionTimes dtg)
            (offsetGrid M dtg) with ⟨hfold, _⟩ | ⟨sc, _, hmem, hcand, hmax⟩
        · rw [hfold] at hne
          exact absurd rfl hne
        · obtain ⟨hlo, hhi⟩ := offsetGrid_mem_bounds hM _ hmem
          exact ⟨hlo, hhi, sc, hcand, hmax⟩

theorem claim_C9_amended_offset_props_witness :
    estimateOffsetSecFromEnv (fun q => q) [1, 1, 1, 1] [0, 1, 2, 3]
      [1, 1, 1, 1] [0, 1, 2, 3] 1 (1 / 10) = 0 :=
  (claim_C9_amended_offset_props (fun q => q) [1, 1, 1, 1] [0, 1, 2, 3]
    [1, 1, 1, 1] [0, 1, 2, 3] 1 (1 / 10) (by decide)).2.1 (by decide)

/-- C10: every index `_nms_basic` returns is a strict local maximum on the
left and a non-strict one on the right; in particular it is neither `0` nor
`T - 1`, so no event lands on a boundary frame. -/
theorem claim_C10_nms_local_maxima (score : List ℚ) (fps minSep : ℚ) :
    ∀ e ∈ nmsBasic score fps minSep,
      1 ≤ e ∧ e + 1 < score.length ∧
        score.getD (e - 1) 0 < score.getD e 0 ∧
        score.getD (e + 1) 0 ≤ score.getD e 0 := by
  intro e he
  obtain ⟨hmem, _, _⟩ := nmsBasic_picked_props score fps minSep
  obtain ⟨hlt, hmax⟩ := hmem e he
  exact localMaximaB_getD hlt hmax

theorem claim_C10_nms_local_maxima_witness :
    1 ≤ 1 ∧ 1 + 1 < ([0, 2, 0] : List ℚ).length ∧
      ([0, 2, 0] : List ℚ).getD 0 0 < ([0, 2, 0] : List ℚ).getD 1 0 ∧
      ([0, 2, 0] : List ℚ).getD 2 0 ≤ ([0, 2, 0] : List ℚ).getD 1 0 :=
  claim_C10_nms_local_maxima [0, 2, 0] 1 0 1 (by decide)

end M2M